import Mathlib

set_option maxRecDepth 4000
set_option linter.dupNamespace false

/-!
# QuadTC: a driver for up to four MAX31855 thermocouple digitisers

A shallow embedding of `src/QuadTC.h` and `src/QuadTC.tpp` and theorems about it.

* Machine integers are mathematical integers with explicit wrap-around:
  `uint32_t` values are naturals below `2^32`, `int16_t` values are integers
  in `-32768..32767`, and every assignment to an `int16_t` goes through
  `int16_t`, the conversion to that type.
* The arrays `_spics`, `_tctemp`, `_ambtemp`, `_faults` of length `tc_count`
  are functions on `Fin tc_count`.
* The host primitives `pinMode`, `digitalWrite` and `SPI.transfer` act on an
  explicit hardware state `Hw`.
* `QUADTC_ASSERT` expands to nothing (`QUADTC_DEBUG` is not defined in
  `QuadTC.h`), so it leaves no trace in the embedding.
-/

namespace QuadTCLib

/-! ## Constants and types of `QuadTC.h` -/

def QUADTC_DEFAULT_GPIO_TCPOWER : Nat := 40
def QUADTC_DEFAULT_GPIO_SPICS1 : Nat := 39
def QUADTC_DEFAULT_GPIO_SPICS2 : Nat := 38
def QUADTC_DEFAULT_GPIO_SPICS3 : Nat := 37
def QUADTC_DEFAULT_GPIO_SPICS4 : Nat := 36

def MAX31855_FAULT_SCV : Nat := 0x04
def MAX31855_FAULT_SCG : Nat := 0x02
def MAX31855_FAULT_OC : Nat := 0x01

def MAX31855_FAULT_SHORT_VCC : Nat := MAX31855_FAULT_SCV
def MAX31855_FAULT_SHORT_GND : Nat := MAX31855_FAULT_SCG
def MAX31855_FAULT_DISCONNECT : Nat := MAX31855_FAULT_OC

/-- The enum `max31855_Fault`. -/
inductive max31855_Fault where
  | NONE
  | SHORT_VCC
  | SHORT_GND
  | DISCONNECTED
  | BUS_ERROR
  deriving DecidableEq, Repr

open max31855_Fault

/-! ## Machine integers -/

/-- Conversion of an integer to `int16_t`: the value modulo `2^16` that lies
in `-32768..32767`. -/
def int16_t (x : Int) : Int := (x + 32768) % 65536 - 32768

/-- Conversion of a natural number to `uint32_t`. -/
def uint32_t (x : Nat) : Nat := x % 2 ^ 32

/-! ## Host platform: pins and the SPI bus -/

/-- Pin directions of the host platform. -/
inductive PinMode where
  | INPUT
  | OUTPUT
  deriving DecidableEq, Repr

/-- Logic level `HIGH`. -/
def HIGH : Bool := true

/-- Logic level `LOW`. -/
def LOW : Bool := false

/-- One call of a host primitive, as seen from outside the driver. -/
inductive Event where
  | pinMode (pin : Nat) (mode : PinMode)
  | digitalWrite (pin : Nat) (level : Bool)
  | transfer (sent : Nat) (received : Nat)
  deriving DecidableEq, Repr

/-- The hardware the driver talks to: direction and level of every pin, the
bytes the SPI bus answers with (`miso k` is the answer to the `k`-th byte
exchange since power-up), the number of exchanges made so far, and the
sequence of primitive calls made so far, oldest first. -/
structure Hw where
  mode : Nat → PinMode
  level : Nat → Bool
  miso : Nat → Nat
  xfers : Nat
  log : List Event

/-- Host primitive `pinMode(pin, mode)`: sets the direction of one pin. -/
def pinMode (hw : Hw) (pin : Nat) (m : PinMode) : Hw :=
  { hw with mode := Function.update hw.mode pin m,
            log := hw.log ++ [Event.pinMode pin m] }

/-- Host primitive `digitalWrite(pin, level)`: sets the level of one pin. -/
def digitalWrite (hw : Hw) (pin : Nat) (v : Bool) : Hw :=
  { hw with level := Function.update hw.level pin v,
            log := hw.log ++ [Event.digitalWrite pin v] }

/-- Host primitive `SPI.transfer(out)`: one blocking full-duplex exchange of
a byte; the result is a `uint8_t`. -/
def transfer (hw : Hw) (out : Nat) : Nat × Hw :=
  (hw.miso hw.xfers % 256,
   { hw with xfers := hw.xfers + 1,
             log := hw.log ++ [Event.transfer out (hw.miso hw.xfers % 256)] })

/-! ## The class `QuadTC<tc_count>` -/

/-- The data members of `QuadTC<tc_count>` (the SPI instance pointer is the
bus of `Hw`). -/
structure QuadTC (tc_count : Nat) where
  _spics : Fin tc_count → Nat
  _gpio_tcpower : Nat
  _tctemp : Fin tc_count → Int
  _ambtemp : Fin tc_count → Int
  _faults : Fin tc_count → max31855_Fault

/-- The constructor `QuadTC()`: every slot cleared, then the default pins of
the board. -/
def QuadTC.ctor (tc_count : Nat) : QuadTC tc_count :=
  let _spics : Fin tc_count → Nat := fun _ => 0
  let _tctemp : Fin tc_count → Int := fun _ => 0
  let _ambtemp : Fin tc_count → Int := fun _ => 0
  let _faults : Fin tc_count → max31855_Fault := fun _ => NONE
  let _gpio_tcpower := QUADTC_DEFAULT_GPIO_TCPOWER
  let _spics := if h : tc_count > 0 then
      Function.update _spics ⟨0, h⟩ QUADTC_DEFAULT_GPIO_SPICS1 else _spics
  let _spics := if h : tc_count > 1 then
      Function.update _spics ⟨1, h⟩ QUADTC_DEFAULT_GPIO_SPICS2 else _spics
  let _spics := if h : tc_count > 2 then
      Function.update _spics ⟨2, h⟩ QUADTC_DEFAULT_GPIO_SPICS3 else _spics
  let _spics := if h : tc_count > 3 then
      Function.update _spics ⟨3, h⟩ QUADTC_DEFAULT_GPIO_SPICS4 else _spics
  { _spics := _spics, _gpio_tcpower := _gpio_tcpower, _tctemp := _tctemp,
    _ambtemp := _ambtemp, _faults := _faults }

/-- The state after the first `k` rounds of
`for (i = 0; i < tc_count; i++) body(i)`. -/
def forUpTo {σ : Type} (tc_count : Nat) (body : Fin tc_count → σ → σ) :
    (k : Nat) → k ≤ tc_count → σ → σ
  | 0, _, s => s
  | k + 1, h, s => body ⟨k, h⟩ (forUpTo tc_count body k (Nat.le_of_succ_le h) s)

/-- The loop `for (i = 0; i < tc_count; i++) body(i)` run to completion. -/
def forLoop {σ : Type} (tc_count : Nat) (body : Fin tc_count → σ → σ) (s : σ) : σ :=
  forUpTo tc_count body tc_count (Nat.le_refl tc_count) s

/-- One round of the byte loop of `_retrieve_data`:
`b = _spi->transfer(0); b <<= 8 * (3-i); res |= b;`. -/
def _retrieve_data_byte (st : Nat × Hw) (i : Nat) : Nat × Hw :=
  let b := (transfer st.2 0).1
  let hw := (transfer st.2 0).2
  let b := uint32_t (b <<< (8 * (3 - i)))
  (st.1 ||| b, hw)

/-- The method `_retrieve_data(idx)`: pulls one 32-bit word from chip `idx`
(counted from 1). -/
def _retrieve_data {tc_count : Nat} (q : QuadTC tc_count) (hw : Hw) (idx : Nat) : Nat × Hw :=
  if h : idx = 0 ∨ idx > tc_count then
    (0, hw)
  else
    let idx' : Fin tc_count := ⟨idx - 1, by omega⟩
    let hw := digitalWrite hw (q._spics idx') LOW
    let st := (List.range 4).foldl _retrieve_data_byte (0, hw)
    let hw := digitalWrite st.2 (q._spics idx') HIGH
    (st.1, hw)

/-- The variables live across the rounds of the loop of `retrieve`. -/
structure RetrieveState (tc_count : Nat) where
  good : Nat
  q : QuadTC tc_count
  hw : Hw

/-- The body of the loop of `retrieve`, for channel slot `i`. -/
def retrieve_body {tc_count : Nat} (i : Fin tc_count) (st : RetrieveState tc_count) :
    RetrieveState tc_count :=
  let res := (_retrieve_data st.q st.hw (i.val + 1)).1
  let hw := (_retrieve_data st.q st.hw (i.val + 1)).2
  let q := st.q
  if res = 0x00000000 ∨ res = 0xFFFFFFFF then
    { good := st.good, q := { q with _faults := Function.update q._faults i BUS_ERROR }, hw := hw }
  else
    let datum := int16_t (res >>> 18)
    let datum := if Int.land datum 0x2000 ≠ 0 then int16_t (Int.lor datum 0xC000) else datum
    let q := { q with _tctemp := Function.update q._tctemp i datum }
    let datum := int16_t (res >>> 4)
    let datum := int16_t (Int.land datum 0x0FFF)
    let datum := if Int.land datum 0x0800 ≠ 0 then int16_t (Int.lor datum 0xF000) else datum
    let q := { q with _ambtemp := Function.update q._ambtemp i datum }
    let q := { q with _faults := Function.update q._faults i NONE }
    let q := if res &&& MAX31855_FAULT_SHORT_VCC ≠ 0 then
        { q with _faults := Function.update q._faults i SHORT_VCC } else q
    let q := if res &&& MAX31855_FAULT_SHORT_GND ≠ 0 then
        { q with _faults := Function.update q._faults i SHORT_GND } else q
    let q := if res &&& MAX31855_FAULT_DISCONNECT ≠ 0 then
        { q with _faults := Function.update q._faults i DISCONNECTED } else q
    let good := if q._faults i = NONE then st.good + 1 else st.good
    { good := good, q := q, hw := hw }

/-- The method `retrieve()`: reads every chip and stores the decoded values;
the result is the final `good` together with the new object and hardware
states. -/
def retrieve {tc_count : Nat} (q : QuadTC tc_count) (hw : Hw) : RetrieveState tc_count :=
  forLoop tc_count retrieve_body { good := 0, q := q, hw := hw }

/-- The method `getThermocoupleCelsius(idx)`. -/
def getThermocoupleCelsius {tc_count : Nat} (q : QuadTC tc_count) (idx : Nat) :
    Int × QuadTC tc_count :=
  if h : idx = 0 ∨ idx > tc_count then
    (0, q)
  else
    let idx' : Fin tc_count := ⟨idx - 1, by omega⟩
    let celsius := int16_t (Int.tdiv (q._tctemp idx') 4)
    (celsius, q)

/-- The method `getThermocoupleFahrenheit(idx)`. -/
def getThermocoupleFahrenheit {tc_count : Nat} (q : QuadTC tc_count) (idx : Nat) :
    Int × QuadTC tc_count :=
  if h : idx = 0 ∨ idx > tc_count then
    (0, q)
  else
    let idx' : Fin tc_count := ⟨idx - 1, by omega⟩
    let fahrenheit := int16_t (q._tctemp idx')
    let fahrenheit := int16_t (fahrenheit * 9)
    let fahrenheit := int16_t (Int.tdiv fahrenheit 5)
    let fahrenheit := int16_t (Int.tdiv fahrenheit 4)
    let fahrenheit := int16_t (fahrenheit + 32)
    (fahrenheit, q)

/-- The method `getAmbientCelsius(idx)`. -/
def getAmbientCelsius {tc_count : Nat} (q : QuadTC tc_count) (idx : Nat) :
    Int × QuadTC tc_count :=
  if h : idx = 0 ∨ idx > tc_count then
    (0, q)
  else
    let idx' : Fin tc_count := ⟨idx - 1, by omega⟩
    let celsius := int16_t (Int.tdiv (q._ambtemp idx') 16)
    (celsius, q)

/-- The method `getAmbientFahrenheit(idx)`. -/
def getAmbientFahrenheit {tc_count : Nat} (q : QuadTC tc_count) (idx : Nat) :
    Int × QuadTC tc_count :=
  if h : idx = 0 ∨ idx > tc_count then
    (0, q)
  else
    let idx' : Fin tc_count := ⟨idx - 1, by omega⟩
    let fahrenheit := int16_t (q._ambtemp idx')
    let fahrenheit := int16_t (fahrenheit * 9)
    let fahrenheit := int16_t (Int.tdiv fahrenheit 5)
    let fahrenheit := int16_t (Int.tdiv fahrenheit 16)
    let fahrenheit := int16_t (fahrenheit + 32)
    (fahrenheit, q)

/-- The method `getFault(idx)`. -/
def getFault {tc_count : Nat} (q : QuadTC tc_count) (idx : Nat) :
    max31855_Fault × QuadTC tc_count :=
  if h : idx = 0 ∨ idx > tc_count then
    (BUS_ERROR, q)
  else
    let idx' : Fin tc_count := ⟨idx - 1, by omega⟩
    (q._faults idx', q)

/-- The constructor `QuadTC(tcpower, cs1)`. Its first statement `QuadTC();`
builds a temporary object and destroys it; the members of the object under
construction are not touched by it and keep what the storage `mem` of the
object held. -/
def QuadTC.ctor1 {tc_count : Nat} (mem : QuadTC tc_count) (tcpower cs1 : Nat) :
    QuadTC tc_count :=
  let q := { mem with _gpio_tcpower := tcpower }
  let q := if h : tc_count > 0 then
      { q with _spics := Function.update q._spics ⟨0, h⟩ cs1 } else q
  q

/-- The constructor `QuadTC(tcpower, cs1, cs2)`; `mem` as for `QuadTC.ctor1`. -/
def QuadTC.ctor2 {tc_count : Nat} (mem : QuadTC tc_count) (tcpower cs1 cs2 : Nat) :
    QuadTC tc_count :=
  let q := { mem with _gpio_tcpower := tcpower }
  let q := if h : tc_count > 0 then
      { q with _spics := Function.update q._spics ⟨0, h⟩ cs1 } else q
  let q := if h : tc_count > 1 then
      { q with _spics := Function.update q._spics ⟨1, h⟩ cs2 } else q
  q

/-- The constructor `QuadTC(tcpower, cs1, cs2, cs3)`; `mem` as for
`QuadTC.ctor1`. -/
def QuadTC.ctor3 {tc_count : Nat} (mem : QuadTC tc_count) (tcpower cs1 cs2 cs3 : Nat) :
    QuadTC tc_count :=
  let q := { mem with _gpio_tcpower := tcpower }
  let q := if h : tc_count > 0 then
      { q with _spics := Function.update q._spics ⟨0, h⟩ cs1 } else q
  let q := if h : tc_count > 1 then
      { q with _spics := Function.update q._spics ⟨1, h⟩ cs2 } else q
  let q := if h : tc_count > 2 then
      { q with _spics := Function.update q._spics ⟨2, h⟩ cs3 } else q
  q

/-- The constructor `QuadTC(tcpower, cs1, cs2, cs3, cs4)`; `mem` as for
`QuadTC.ctor1`. -/
def QuadTC.ctor4 {tc_count : Nat} (mem : QuadTC tc_count)
    (tcpower cs1 cs2 cs3 cs4 : Nat) : QuadTC tc_count :=
  let q := { mem with _gpio_tcpower := tcpower }
  let q := if h : tc_count > 0 then
      { q with _spics := Function.update q._spics ⟨0, h⟩ cs1 } else q
  let q := if h : tc_count > 1 then
      { q with _spics := Function.update q._spics ⟨1, h⟩ cs2 } else q
  let q := if h : tc_count > 2 then
      { q with _spics := Function.update q._spics ⟨2, h⟩ cs3 } else q
  let q := if h : tc_count > 3 then
      { q with _spics := Function.update q._spics ⟨3, h⟩ cs4 } else q
  q

/-- The method `begin()`. -/
def begin {tc_count : Nat} (q : QuadTC tc_count) (hw : Hw) : QuadTC tc_count × Hw :=
  let hw := forLoop tc_count
    (fun i hw => digitalWrite (pinMode hw (q._spics i) PinMode.OUTPUT) (q._spics i) HIGH) hw
  let hw := pinMode hw q._gpio_tcpower PinMode.OUTPUT
  let hw := digitalWrite hw q._gpio_tcpower LOW
  let q := forLoop tc_count
    (fun i q => { q with _tctemp := Function.update q._tctemp i 0,
                         _ambtemp := Function.update q._ambtemp i 0,
                         _faults := Function.update q._faults i NONE }) q
  (q, hw)

/-- The method `end()` (`end` is a reserved word). -/
def end_ {tc_count : Nat} (q : QuadTC tc_count) (hw : Hw) : QuadTC tc_count × Hw :=
  let hw := digitalWrite hw q._gpio_tcpower LOW
  let hw := forLoop tc_count (fun i hw => pinMode hw (q._spics i) PinMode.INPUT) hw
  (q, hw)

/-- The method `stop()`. -/
def stop {tc_count : Nat} (q : QuadTC tc_count) (hw : Hw) : QuadTC tc_count × Hw :=
  let hw := digitalWrite hw q._gpio_tcpower LOW
  let hw := forLoop tc_count (fun i hw => digitalWrite hw (q._spics i) HIGH) hw
  (q, hw)

/-- The method `start()`. -/
def start {tc_count : Nat} (q : QuadTC tc_count) (hw : Hw) : QuadTC tc_count × Hw :=
  let hw := forLoop tc_count (fun i hw => digitalWrite hw (q._spics i) HIGH) hw
  let hw := digitalWrite hw q._gpio_tcpower HIGH
  (q, hw)

/-- The public calls of the class, other than the constructors. -/
inductive Call where
  | begin
  | end_
  | start
  | stop
  | retrieve
  | getThermocoupleCelsius (idx : Nat)
  | getThermocoupleFahrenheit (idx : Nat)
  | getAmbientCelsius (idx : Nat)
  | getAmbientFahrenheit (idx : Nat)
  | getFault (idx : Nat)

/-- The reader and hardware states after one call. -/
def call {tc_count : Nat} (s : QuadTC tc_count × Hw) : Call → QuadTC tc_count × Hw
  | Call.begin => begin s.1 s.2
  | Call.end_ => end_ s.1 s.2
  | Call.start => start s.1 s.2
  | Call.stop => stop s.1 s.2
  | Call.retrieve => ((retrieve s.1 s.2).q, (retrieve s.1 s.2).hw)
  | Call.getThermocoupleCelsius idx => ((getThermocoupleCelsius s.1 idx).2, s.2)
  | Call.getThermocoupleFahrenheit idx => ((getThermocoupleFahrenheit s.1 idx).2, s.2)
  | Call.getAmbientCelsius idx => ((getAmbientCelsius s.1 idx).2, s.2)
  | Call.getAmbientFahrenheit idx => ((getAmbientFahrenheit s.1 idx).2, s.2)
  | Call.getFault idx => ((getFault s.1 idx).2, s.2)

/-- The reader and hardware states after a sequence of calls, first call
first. -/
def calls {tc_count : Nat} (s : QuadTC tc_count × Hw) (cs : List Call) :
    QuadTC tc_count × Hw :=
  cs.foldl call s

/-! ## Vocabulary of the statements -/

/-- Every stored thermocouple value is a 14-bit and every stored ambient value
a 12-bit two's-complement number. -/
def InRange {tc_count : Nat} (q : QuadTC tc_count) : Prop :=
  ∀ i : Fin tc_count, (-8192 ≤ q._tctemp i ∧ q._tctemp i ≤ 8191) ∧
    (-2048 ≤ q._ambtemp i ∧ q._ambtemp i ≤ 2047)

/-- The 32-bit word made of the four bytes that the bus answers with from
exchange number `pos` on, most significant byte first. -/
def wordAt (miso : Nat → Nat) (pos : Nat) : Nat :=
  miso pos % 256 * 2 ^ 24 + miso (pos + 1) % 256 * 2 ^ 16
    + miso (pos + 2) % 256 * 2 ^ 8 + miso (pos + 3) % 256

/-- The word received for channel slot `i` (counted from 0) in a pass of
`retrieve` that starts in hardware state `hw`: channel `i` is answered by the
exchanges number `4 * i` to `4 * i + 3` of the pass. -/
def rxWord (hw : Hw) (i : Nat) : Nat := wordAt hw.miso (hw.xfers + 4 * i)

/-- The value of the 14-bit two's-complement field `w[31:18]`. -/
def tcField (w : Nat) : Int :=
  if (w >>> 18).testBit 13 then ((w >>> 18 : Nat) : Int) - 16384 else ((w >>> 18 : Nat) : Int)

/-- The value of the 12-bit two's-complement field `w[15:4]`. -/
def ambField (w : Nat) : Int :=
  if (w >>> 4 % 4096).testBit 11 then ((w >>> 4 % 4096 : Nat) : Int) - 4096
  else ((w >>> 4 % 4096 : Nat) : Int)

/-- The fault that the three low bits of a word stand for when the checks of
`retrieve` are made in the order of the code, each overwriting the one before. -/
def faultBits (w : Nat) : max31855_Fault :=
  if w.testBit 0 then DISCONNECTED
  else if w.testBit 1 then SHORT_GND
  else if w.testBit 2 then SHORT_VCC
  else NONE

/-- The fault stored for a channel on word `w`. -/
def faultAfter (w : Nat) : max31855_Fault :=
  if w = 0x00000000 ∨ w = 0xFFFFFFFF then BUS_ERROR else faultBits w

/-- The thermocouple value stored for a channel with previous value `old` on
word `w`. -/
def tcAfter (old : Int) (w : Nat) : Int :=
  if w = 0x00000000 ∨ w = 0xFFFFFFFF then old else tcField w

/-- The ambient value stored for a channel with previous value `old` on word
`w`. -/
def ambAfter (old : Int) (w : Nat) : Int :=
  if w = 0x00000000 ∨ w = 0xFFFFFFFF then old else ambField w

/-- A hardware state whose bus answers with the bytes `bs`, then with zeros. -/
def hwOf (bs : List Nat) : Hw :=
  { mode := fun _ => PinMode.INPUT, level := fun _ => LOW,
    miso := fun k => bs.getD k 0, xfers := 0, log := [] }

/-- Two chips answer `0xFFF0FFF0` (thermocouple field `0x3FFC`, ambient field
`0xFFF`, no fault bit) and `0x06401900` (thermocouple 400, ambient 400). -/
def hwReadings : Hw := hwOf [0xFF, 0xF0, 0xFF, 0xF0, 0x06, 0x40, 0x19, 0x00]

/-- Two chips answer `0x00000000` and `0xFFFFFFFF`, as an unpowered bus does. -/
def hwDead : Hw := hwOf [0, 0, 0, 0, 0xFF, 0xFF, 0xFF, 0xFF]

/-- Two chips answer `0x00000007` (all three fault bits) and `0x00000013`
(the two low fault bits and ambient field 1). -/
def hwFaults : Hw := hwOf [0, 0, 0, 7, 0, 0, 0, 0x13]

/-- A reader of two chips that has made one pass over `hwReadings`. -/
def qReadings : QuadTC 2 := (retrieve (QuadTC.ctor 2) hwReadings).q

/-- One chip answers `0x38E40000`: thermocouple field 3641 (910.25 degrees
Celsius), ambient field 0, no fault bit. -/
def hwHot : Hw := hwOf [0x38, 0xE4, 0x00, 0x00]

/-- Two chips answer `0xFFFFFFFF` and `0x06401900`, and answer the same again
on the next pass. -/
def hwTwice : Hw :=
  hwOf [0xFF, 0xFF, 0xFF, 0xFF, 0x06, 0x40, 0x19, 0x00,
        0xFF, 0xFF, 0xFF, 0xFF, 0x06, 0x40, 0x19, 0x00]

/-- Chip 1 answers `0x06400000` (thermocouple field 400, i.e. 100 degrees
Celsius, nothing else set) and chip 2 answers `0xFFFFFFFF`. -/
def hwEndToEnd : Hw := hwOf [0x06, 0x40, 0x00, 0x00, 0xFF, 0xFF, 0xFF, 0xFF]

/-- Zero-filled storage, as an object of static storage duration has before its
constructor runs. -/
def zeroStorage (tc_count : Nat) : QuadTC tc_count :=
  { _spics := fun _ => 0, _gpio_tcpower := 0, _tctemp := fun _ => 0,
    _ambtemp := fun _ => 0, _faults := fun _ => NONE }

/-- One chip answers `0xFFF0FFF1`: the encoding of thermocouple -4, ambient -1
and fault bit 0. -/
def hwEncoded : Hw := hwOf [0xFF, 0xF0, 0xFF, 0xF1]

/-- The pin levels after one primitive call: only `digitalWrite` changes
them. -/
def applyEvent (lv : Nat → Bool) : Event → Nat → Bool
  | Event.digitalWrite pin v => Function.update lv pin v
  | Event.pinMode _ _ => lv
  | Event.transfer _ _ => lv

/-- The pin levels after a sequence of primitive calls, starting from `lv`. -/
def replay (lv : Nat → Bool) (evs : List Event) : Nat → Bool :=
  evs.foldl applyEvent lv

/-- The number of byte exchanges in a sequence of primitive calls. -/
def countTransfers : List Event → Nat
  | [] => 0
  | Event.transfer _ _ :: es => countTransfers es + 1
  | Event.digitalWrite _ _ :: es => countTransfers es
  | Event.pinMode _ _ :: es => countTransfers es

/-- The primitive calls of one chip read: select `pin`, exchange four bytes
(sending 0, receiving the answers number `pos` to `pos + 3` of the bus),
deselect `pin`. -/
def chanEvents (pin : Nat) (miso : Nat → Nat) (pos : Nat) : List Event :=
  [Event.digitalWrite pin LOW,
   Event.transfer 0 (miso pos % 256),
   Event.transfer 0 (miso (pos + 1) % 256),
   Event.transfer 0 (miso (pos + 2) % 256),
   Event.transfer 0 (miso (pos + 3) % 256),
   Event.digitalWrite pin HIGH]

/-- The primitive calls of the chip reads of channel slots `0` to `k - 1`, in
this order, on a bus whose next answer is number `pos`. -/
def passEvents {tc_count : Nat} (q : QuadTC tc_count) (miso : Nat → Nat) (pos : Nat) :
    (k : Nat) → k ≤ tc_count → List Event
  | 0, _ => []
  | k + 1, h =>
    passEvents q miso pos k (Nat.le_of_succ_le h)
      ++ chanEvents (q._spics ⟨k, h⟩) miso (pos + 4 * k)

/-- A property `P` of the pin levels holds before every primitive call of a
sequence and after the last one, and `X k r` holds of the levels at every byte
exchange, where `k` numbers the exchanges and `r` is the byte received. -/
def Along (P : (Nat → Bool) → Prop) (X : Nat → Nat → (Nat → Bool) → Prop) :
    (Nat → Bool) → Nat → List Event → Prop
  | lv, _, [] => P lv
  | lv, k, Event.transfer _ r :: es => P lv ∧ X k r lv ∧ Along P X lv (k + 1) es
  | lv, k, Event.digitalWrite pin v :: es => P lv ∧ Along P X (Function.update lv pin v) k es
  | lv, k, Event.pinMode _ _ :: es => P lv ∧ Along P X lv k es

/-- A hardware state with every pin at logic high, an empty log and a bus that
answers zeros. -/
def hwHigh : Hw :=
  { mode := fun _ => PinMode.OUTPUT, level := fun _ => HIGH, miso := fun _ => 0,
    xfers := 0, log := [] }

/-- A reader of one chip built by `QuadTC(40, 40)` in zero-filled storage: its
chip-select pin is also its power pin. -/
def qShared : QuadTC 1 := QuadTC.ctor1 (zeroStorage 1) 40 40

/-- A hardware state with every pin an input at logic low and a bus that
answers zeros. -/
def hwIdle : Hw := hwOf []

/-! ## Arithmetic of the decoding -/

theorem int16_t_of_mem {x : Int} (h1 : -32768 ≤ x) (h2 : x ≤ 32767) : int16_t x = x := by
  unfold int16_t
  omega

theorem int16_t_mem (x : Int) : -32768 ≤ int16_t x ∧ int16_t x ≤ 32767 := by
  unfold int16_t
  omega

theorem or_eq_add_of_lt {a k : Nat} (x : Nat) (h : a < 2 ^ k) :
    x * 2 ^ k ||| a = x * 2 ^ k + a := by
  rw [Nat.mul_comm, Nat.mul_add_lt_is_or h]

theorem wordAt_lt (miso : Nat → Nat) (pos : Nat) : wordAt miso pos < 2 ^ 32 := by
  unfold wordAt
  have h0 := Nat.mod_lt (miso pos) (show 256 > 0 by decide)
  have h1 := Nat.mod_lt (miso (pos + 1)) (show 256 > 0 by decide)
  have h2 := Nat.mod_lt (miso (pos + 2)) (show 256 > 0 by decide)
  have h3 := Nat.mod_lt (miso (pos + 3)) (show 256 > 0 by decide)
  omega

theorem assemble_bytes (b0 b1 b2 b3 : Nat) (h0 : b0 < 256) (h1 : b1 < 256) (h2 : b2 < 256)
    (h3 : b3 < 256) :
    (((0 ||| uint32_t (b0 <<< (8 * (3 - 0)))) ||| uint32_t (b1 <<< (8 * (3 - 1))))
        ||| uint32_t (b2 <<< (8 * (3 - 2)))) ||| uint32_t (b3 <<< (8 * (3 - 3)))
      = b0 * 2 ^ 24 + b1 * 2 ^ 16 + b2 * 2 ^ 8 + b3 := by
  simp only [uint32_t, Nat.shiftLeft_eq, Nat.zero_or]
  have e0 : b0 * 2 ^ (8 * (3 - 0)) % 2 ^ 32 = b0 * 2 ^ 24 := by
    norm_num; omega
  have e1 : b1 * 2 ^ (8 * (3 - 1)) % 2 ^ 32 = b1 * 2 ^ 16 := by
    norm_num; omega
  have e2 : b2 * 2 ^ (8 * (3 - 2)) % 2 ^ 32 = b2 * 2 ^ 8 := by
    norm_num; omega
  have e3 : b3 * 2 ^ (8 * (3 - 3)) % 2 ^ 32 = b3 := by
    norm_num; omega
  rw [e0, e1, e2, e3]
  have s1 : b0 * 2 ^ 24 ||| b1 * 2 ^ 16 = b0 * 2 ^ 24 + b1 * 2 ^ 16 :=
    or_eq_add_of_lt b0 (by omega)
  rw [s1]
  have s2 : (b0 * 2 ^ 24 + b1 * 2 ^ 16) ||| b2 * 2 ^ 8 = b0 * 2 ^ 24 + b1 * 2 ^ 16 + b2 * 2 ^ 8 := by
    have e : b0 * 2 ^ 24 + b1 * 2 ^ 16 = (b0 * 2 ^ 8 + b1) * 2 ^ 16 := by ring
    rw [e]
    exact or_eq_add_of_lt _ (by omega)
  rw [s2]
  have e : b0 * 2 ^ 24 + b1 * 2 ^ 16 + b2 * 2 ^ 8 = (b0 * 2 ^ 16 + b1 * 2 ^ 8 + b2) * 2 ^ 8 := by
    ring
  rw [e]
  exact or_eq_add_of_lt _ (by omega)

theorem and_two_pow_eq (n k : Nat) : n &&& 2 ^ k = if n.testBit k then 2 ^ k else 0 := by
  apply Nat.eq_of_testBit_eq
  intro i
  rw [Nat.testBit_and, Nat.testBit_two_pow]
  by_cases hk : k = i
  · subst hk
    cases hb : n.testBit k <;> simp [Nat.testBit_two_pow]
  · cases hb : n.testBit k <;> simp [hk, Nat.testBit_two_pow]

theorem and_two_pow_ne_zero (n k : Nat) : n &&& 2 ^ k ≠ 0 ↔ n.testBit k = true := by
  rw [and_two_pow_eq]
  cases n.testBit k <;> simp

theorem ldiff_mask (n k : Nat) : Nat.ldiff (2 ^ k - 1) n = 2 ^ k - 1 - n % 2 ^ k := by
  have hlt : n % 2 ^ k < 2 ^ k := Nat.mod_lt _ (Nat.two_pow_pos k)
  have e : 2 ^ k - 1 - n % 2 ^ k = 2 ^ k - (n % 2 ^ k + 1) := by omega
  rw [e]
  apply Nat.eq_of_testBit_eq
  intro i
  rw [Nat.testBit_ldiff, Nat.testBit_two_pow_sub_succ hlt, Nat.testBit_two_pow_sub_one,
    Nat.testBit_mod_two_pow]
  by_cases hi : i < k <;> simp [hi]

theorem land_mask (x : Int) (k : Nat) : Int.land x ((2 ^ k - 1 : Nat) : Int) = x % (2 ^ k : Nat) := by
  cases x with
  | ofNat n =>
    show ((n &&& (2 ^ k - 1) : Nat) : Int) = _
    rw [Nat.and_pow_two_sub_one_eq_mod]
    simp
  | negSucc n =>
    show ((Nat.ldiff (2 ^ k - 1) n : Nat) : Int) = _
    rw [ldiff_mask, Int.negSucc_emod n (by positivity)]
    have hlt : n % 2 ^ k < 2 ^ k := Nat.mod_lt _ (Nat.two_pow_pos k)
    have hp : 1 ≤ 2 ^ k := Nat.two_pow_pos k
    push_cast [Nat.sub_sub, Nat.cast_sub (show 1 + n % 2 ^ k ≤ 2 ^ k by omega)]
    ring

theorem tc_decode (w : Nat) (h : w < 2 ^ 32) :
    (if Int.land (int16_t ((w >>> 18 : Nat) : Int)) 0x2000 ≠ 0
      then int16_t (Int.lor (int16_t ((w >>> 18 : Nat) : Int)) 0xC000)
      else int16_t ((w >>> 18 : Nat) : Int)) = tcField w := by
  have hn : w >>> 18 < 2 ^ 14 := by
    rw [Nat.shiftRight_eq_div_pow]
    omega
  unfold tcField
  generalize w >>> 18 = n at hn
  rw [int16_t_of_mem (by omega) (by omega)]
  have hl : Int.land (n : Int) 0x2000 = ((n &&& 2 ^ 13 : Nat) : Int) := rfl
  have ho : Int.lor (n : Int) 0xC000 = ((n ||| 0xC000 : Nat) : Int) := rfl
  rw [hl, ho]
  have hor : n ||| 0xC000 = 3 * 2 ^ 14 + n := by
    rw [Nat.or_comm]
    exact or_eq_add_of_lt 3 hn
  rw [hor]
  by_cases hb : n.testBit 13 = true
  · have : n &&& 2 ^ 13 ≠ 0 := (and_two_pow_ne_zero n 13).2 hb
    rw [if_pos (by exact_mod_cast this), if_pos hb]
    unfold int16_t
    push_cast
    omega
  · have : ¬ (n &&& 2 ^ 13 ≠ 0) := fun h => hb ((and_two_pow_ne_zero n 13).1 h)
    rw [if_neg (by exact_mod_cast this), if_neg hb]

theorem amb_decode (w : Nat) :
    (if Int.land (int16_t (Int.land (int16_t ((w >>> 4 : Nat) : Int)) 0x0FFF)) 0x0800 ≠ 0
      then int16_t (Int.lor (int16_t (Int.land (int16_t ((w >>> 4 : Nat) : Int)) 0x0FFF)) 0xF000)
      else int16_t (Int.land (int16_t ((w >>> 4 : Nat) : Int)) 0x0FFF)) = ambField w := by
  unfold ambField
  have hm : Int.land (int16_t ((w >>> 4 : Nat) : Int)) 0x0FFF = ((w >>> 4 % 4096 : Nat) : Int) := by
    have := land_mask (int16_t ((w >>> 4 : Nat) : Int)) 12
    norm_num at this
    rw [this]
    unfold int16_t
    push_cast
    omega
  rw [hm]
  have hn : w >>> 4 % 4096 < 2 ^ 12 := Nat.mod_lt _ (by decide)
  generalize w >>> 4 % 4096 = n at hn
  rw [int16_t_of_mem (by omega) (by omega)]
  have hl : Int.land (n : Int) 0x0800 = ((n &&& 2 ^ 11 : Nat) : Int) := rfl
  have ho : Int.lor (n : Int) 0xF000 = ((n ||| 0xF000 : Nat) : Int) := rfl
  rw [hl, ho]
  have hor : n ||| 0xF000 = 15 * 2 ^ 12 + n := by
    rw [Nat.or_comm]
    exact or_eq_add_of_lt 15 hn
  rw [hor]
  by_cases hb : n.testBit 11 = true
  · have : n &&& 2 ^ 11 ≠ 0 := (and_two_pow_ne_zero n 11).2 hb
    rw [if_pos (by exact_mod_cast this), if_pos hb]
    unfold int16_t
    push_cast
    omega
  · have : ¬ (n &&& 2 ^ 11 ≠ 0) := fun h => hb ((and_two_pow_ne_zero n 11).1 h)
    rw [if_neg (by exact_mod_cast this), if_neg hb]

/-! ## One chip, one round -/

theorem retrieve_data_spec {N : Nat} (q : QuadTC N) (hw : Hw) (i : Fin N) :
    (_retrieve_data q hw (i.val + 1)).1 = wordAt hw.miso hw.xfers ∧
    (_retrieve_data q hw (i.val + 1)).2.miso = hw.miso ∧
    (_retrieve_data q hw (i.val + 1)).2.xfers = hw.xfers + 4 := by
  have hc : ¬ (i.val + 1 = 0 ∨ i.val + 1 > N) := by omega
  have hr : List.range 4 = [0, 1, 2, 3] := rfl
  unfold _retrieve_data
  rw [dif_neg hc]
  refine ⟨?_, ?_, ?_⟩
  · simp only [hr, List.foldl, _retrieve_data_byte, transfer, digitalWrite]
    exact assemble_bytes _ _ _ _ (Nat.mod_lt _ (by decide)) (Nat.mod_lt _ (by decide))
      (Nat.mod_lt _ (by decide)) (Nat.mod_lt _ (by decide))
  · simp only [hr, List.foldl, _retrieve_data_byte, transfer, digitalWrite]
  · simp only [hr, List.foldl, _retrieve_data_byte, transfer, digitalWrite]

theorem fault_flags (w : Nat) :
    (w &&& MAX31855_FAULT_SHORT_VCC ≠ 0 ↔ w.testBit 2 = true) ∧
    (w &&& MAX31855_FAULT_SHORT_GND ≠ 0 ↔ w.testBit 1 = true) ∧
    (w &&& MAX31855_FAULT_DISCONNECT ≠ 0 ↔ w.testBit 0 = true) :=
  ⟨and_two_pow_ne_zero w 2, and_two_pow_ne_zero w 1, and_two_pow_ne_zero w 0⟩

theorem retrieve_body_eq {N : Nat} (i : Fin N) (st : RetrieveState N) :
    retrieve_body i st =
      { good := if faultAfter (wordAt st.hw.miso st.hw.xfers) = NONE
          then st.good + 1 else st.good,
        q := { _spics := st.q._spics,
               _gpio_tcpower := st.q._gpio_tcpower,
               _tctemp := Function.update st.q._tctemp i
                 (tcAfter (st.q._tctemp i) (wordAt st.hw.miso st.hw.xfers)),
               _ambtemp := Function.update st.q._ambtemp i
                 (ambAfter (st.q._ambtemp i) (wordAt st.hw.miso st.hw.xfers)),
               _faults := Function.update st.q._faults i
                 (faultAfter (wordAt st.hw.miso st.hw.xfers)) },
        hw := (_retrieve_data st.q st.hw (i.val + 1)).2 } := by
  have hlt := wordAt_lt st.hw.miso st.hw.xfers
  unfold retrieve_body
  rw [(retrieve_data_spec st.q st.hw i).1]
  generalize wordAt st.hw.miso st.hw.xfers = w at hlt
  by_cases hbus : w = 0x00000000 ∨ w = 0xFFFFFFFF
  · simp only [hbus, if_true, tcAfter, ambAfter, faultAfter, Function.update_eq_self]
    simp
  · obtain ⟨f2, f1, f0⟩ := fault_flags w
    simp only [if_neg hbus, tcAfter, ambAfter, faultAfter, tc_decode w hlt, amb_decode w,
      faultBits, f2, f1, f0, ne_eq]
    cases h0 : w.testBit 0 <;> cases h1 : w.testBit 1 <;> cases h2 : w.testBit 2 <;>
      simp [Function.update_idem]

/-! ## The pass over all chips -/

theorem card_filter_lt_succ {N : Nat} (P : Fin N → Prop) [DecidablePred P] (k : Nat)
    (h : k < N) :
    (Finset.univ.filter (fun j : Fin N => j.val < k + 1 ∧ P j)).card
      = (Finset.univ.filter (fun j : Fin N => j.val < k ∧ P j)).card
        + (if P ⟨k, h⟩ then 1 else 0) := by
  by_cases hP : P ⟨k, h⟩
  · have e : Finset.univ.filter (fun j : Fin N => j.val < k + 1 ∧ P j)
        = insert ⟨k, h⟩ (Finset.univ.filter (fun j : Fin N => j.val < k ∧ P j)) := by
      ext j
      simp only [Finset.mem_filter, Finset.mem_univ, true_and, Finset.mem_insert]
      constructor
      · rintro ⟨h1, h2⟩
        by_cases hj : j.val = k
        · exact Or.inl (Fin.ext hj)
        · exact Or.inr ⟨by omega, h2⟩
      · rintro (rfl | ⟨h1, h2⟩)
        · exact ⟨Nat.lt_succ_self k, hP⟩
        · exact ⟨by omega, h2⟩
    rw [e, Finset.card_insert_of_not_mem (by simp), if_pos hP]
  · have e : Finset.univ.filter (fun j : Fin N => j.val < k + 1 ∧ P j)
        = Finset.univ.filter (fun j : Fin N => j.val < k ∧ P j) := by
      ext j
      simp only [Finset.mem_filter, Finset.mem_univ, true_and]
      constructor
      · rintro ⟨h1, h2⟩
        refine ⟨?_, h2⟩
        by_contra hlt
        have hj : j = ⟨k, h⟩ := Fin.ext (by simp only; omega)
        exact hP (hj ▸ h2)
      · rintro ⟨h1, h2⟩
        exact ⟨by omega, h2⟩
    rw [e, if_neg hP, Nat.add_zero]

theorem retrieve_upto {N : Nat} (q : QuadTC N) (hw : Hw) (g0 : Nat) (k : Nat) (h : k ≤ N) :
    (forUpTo N retrieve_body k h { good := g0, q := q, hw := hw }).hw.miso = hw.miso ∧
    (forUpTo N retrieve_body k h { good := g0, q := q, hw := hw }).hw.xfers
      = hw.xfers + 4 * k ∧
    (forUpTo N retrieve_body k h { good := g0, q := q, hw := hw }).q._spics = q._spics ∧
    (forUpTo N retrieve_body k h { good := g0, q := q, hw := hw }).q._gpio_tcpower
      = q._gpio_tcpower ∧
    (∀ j : Fin N, (forUpTo N retrieve_body k h { good := g0, q := q, hw := hw }).q._tctemp j
      = if j.val < k then tcAfter (q._tctemp j) (rxWord hw j) else q._tctemp j) ∧
    (∀ j : Fin N, (forUpTo N retrieve_body k h { good := g0, q := q, hw := hw }).q._ambtemp j
      = if j.val < k then ambAfter (q._ambtemp j) (rxWord hw j) else q._ambtemp j) ∧
    (∀ j : Fin N, (forUpTo N retrieve_body k h { good := g0, q := q, hw := hw }).q._faults j
      = if j.val < k then faultAfter (rxWord hw j) else q._faults j) ∧
    (forUpTo N retrieve_body k h { good := g0, q := q, hw := hw }).good
      = g0 + (Finset.univ.filter
          (fun j : Fin N => j.val < k ∧ faultAfter (rxWord hw j) = NONE)).card := by
  induction k with
  | zero => simp [forUpTo]
  | succ k ih =>
    obtain ⟨i1, i2, i3, i4, i5, i6, i7, i8⟩ := ih (Nat.le_of_succ_le h)
    have hw' : wordAt (forUpTo N retrieve_body k (Nat.le_of_succ_le h)
          { good := g0, q := q, hw := hw }).hw.miso
        (forUpTo N retrieve_body k (Nat.le_of_succ_le h)
          { good := g0, q := q, hw := hw }).hw.xfers = rxWord hw k := by
      rw [i1, i2, rxWord]
    have hd := retrieve_data_spec (forUpTo N retrieve_body k (Nat.le_of_succ_le h)
          { good := g0, q := q, hw := hw }).q
        (forUpTo N retrieve_body k (Nat.le_of_succ_le h)
          { good := g0, q := q, hw := hw }).hw ⟨k, h⟩
    have hupd : ∀ {α : Type} (f g : Fin N → α) (v : Fin N → α → α) (j : Fin N),
        (∀ j : Fin N, f j = if j.val < k then v j (g j) else g j) →
        Function.update f ⟨k, h⟩ (v ⟨k, h⟩ (f ⟨k, h⟩)) j
          = if j.val < k + 1 then v j (g j) else g j := by
      intro α f g v j hf
      by_cases hj : j = ⟨k, h⟩
      · subst hj
        rw [Function.update_same, hf]
        simp
      · have hne : j.val ≠ k := fun e => hj (Fin.ext e)
        rw [Function.update_noteq hj, hf]
        by_cases hlt : j.val < k
        · rw [if_pos hlt, if_pos (by omega)]
        · rw [if_neg hlt, if_neg (by omega)]
    simp only [forUpTo]
    rw [retrieve_body_eq, hw']
    refine ⟨?_, ?_, i3, i4, ?_, ?_, ?_, ?_⟩
    · exact hd.2.1.trans i1
    · show (_retrieve_data _ _ _).2.xfers = _
      rw [hd.2.2, i2]
      omega
    · intro j
      exact hupd _ _ (fun j old => tcAfter old (rxWord hw j)) j i5
    · intro j
      exact hupd _ _ (fun j old => ambAfter old (rxWord hw j)) j i6
    · intro j
      exact hupd _ _ (fun j _ => faultAfter (rxWord hw j)) j i7
    · show (if faultAfter (rxWord hw k) = NONE then _ else _) = _
      rw [i8, card_filter_lt_succ (fun j : Fin N => faultAfter (rxWord hw j) = NONE) k h]
      split <;> omega

theorem retrieve_spec {N : Nat} (q : QuadTC N) (hw : Hw) :
    (retrieve q hw).hw.miso = hw.miso ∧
    (retrieve q hw).hw.xfers = hw.xfers + 4 * N ∧
    (retrieve q hw).q._spics = q._spics ∧
    (retrieve q hw).q._gpio_tcpower = q._gpio_tcpower ∧
    (∀ j : Fin N, (retrieve q hw).q._tctemp j = tcAfter (q._tctemp j) (rxWord hw j)) ∧
    (∀ j : Fin N, (retrieve q hw).q._ambtemp j = ambAfter (q._ambtemp j) (rxWord hw j)) ∧
    (∀ j : Fin N, (retrieve q hw).q._faults j = faultAfter (rxWord hw j)) ∧
    (retrieve q hw).good
      = (Finset.univ.filter (fun j : Fin N => faultAfter (rxWord hw j) = NONE)).card := by
  obtain ⟨i1, i2, i3, i4, i5, i6, i7, i8⟩ := retrieve_upto q hw 0 N (Nat.le_refl N)
  refine ⟨i1, i2, i3, i4, ?_, ?_, ?_, ?_⟩
  · intro j
    have := i5 j
    rwa [if_pos j.isLt] at this
  · intro j
    have := i6 j
    rwa [if_pos j.isLt] at this
  · intro j
    have := i7 j
    rwa [if_pos j.isLt] at this
  · show (forUpTo N retrieve_body N (Nat.le_refl N) _).good = _
    rw [i8, Nat.zero_add]
    congr 1
    ext j
    simp

theorem rxWord_lt (hw : Hw) (i : Nat) : rxWord hw i < 2 ^ 32 := wordAt_lt _ _

theorem tcField_neg_iff (w : Nat) (h : w < 2 ^ 32) :
    tcField w < 0 ↔ (w >>> 18).testBit 13 = true := by
  have hn : w >>> 18 < 2 ^ 14 := by
    rw [Nat.shiftRight_eq_div_pow]
    omega
  unfold tcField
  generalize w >>> 18 = n at hn
  cases hb : n.testBit 13
  · simp
  · simp only [if_true, iff_true]
    omega

theorem ambField_neg_iff (w : Nat) :
    ambField w < 0 ↔ (w >>> 4 % 4096).testBit 11 = true := by
  have hn : w >>> 4 % 4096 < 4096 := Nat.mod_lt _ (by decide)
  unfold ambField
  generalize w >>> 4 % 4096 = n at hn
  cases hb : n.testBit 11
  · simp
  · simp only [if_true, iff_true]
    omega

theorem testBit_field_amb (w : Nat) : (w >>> 4 % 4096).testBit 11 = w.testBit 15 := by
  have := Nat.testBit_mod_two_pow (w >>> 4) 12 11
  norm_num at this
  exact this

theorem faultBits_ne_bus (w : Nat) : faultBits w ≠ BUS_ERROR := by
  unfold faultBits
  cases w.testBit 0 <;> cases w.testBit 1 <;> cases w.testBit 2 <;> simp

theorem testBit_low3 (w : Nat) :
    (w.testBit 0 = decide (w % 2 = 1)) ∧ (w.testBit 1 = decide (w / 2 % 2 = 1)) ∧
    (w.testBit 2 = decide (w / 4 % 2 = 1)) := by
  refine ⟨by simp, ?_, ?_⟩
  · rw [Nat.testBit_to_div_mod]
  · rw [Nat.testBit_to_div_mod]

theorem faultBits_eq_none_iff (w : Nat) : faultBits w = NONE ↔ w % 8 = 0 := by
  obtain ⟨e0, e1, e2⟩ := testBit_low3 w
  unfold faultBits
  rw [e0, e1, e2]
  by_cases h0 : w % 2 = 1 <;> by_cases h1 : w / 2 % 2 = 1 <;> by_cases h2 : w / 4 % 2 = 1 <;>
    simp [h0, h1, h2] <;> omega

theorem faultAfter_eq_none_iff (w : Nat) :
    faultAfter w = NONE ↔ w ≠ 0x00000000 ∧ w ≠ 0xFFFFFFFF ∧ w % 8 = 0 := by
  unfold faultAfter
  by_cases hbus : w = 0x00000000 ∨ w = 0xFFFFFFFF
  · rw [if_pos hbus]
    constructor
    · intro h
      cases h
    · rintro ⟨h0, h1, _⟩
      rcases hbus with h | h
      · exact absurd h h0
      · exact absurd h h1
  · rw [if_neg hbus, faultBits_eq_none_iff]
    constructor
    · intro h
      exact ⟨fun e => hbus (Or.inl e), fun e => hbus (Or.inr e), h⟩
    · rintro ⟨_, _, h⟩
      exact h

/-! ## Decoding of one word -/

/-- C1: for every channel and every word other than `0x00000000` and
`0xFFFFFFFF` received for it, after `retrieve()` the stored thermocouple value is
the two's-complement value of the 14-bit field `w[31:18]`: `w >> 18` when bit 31
of `w` (bit 13 of the field) is clear, `(w >> 18) - 16384` when it is set, so it
is negative exactly when that bit is set. -/
theorem C1_thermocouple_field {N : Nat} (q : QuadTC N) (hw : Hw) (i : Fin N)
    (h0 : rxWord hw i ≠ 0x00000000) (h1 : rxWord hw i ≠ 0xFFFFFFFF) :
    rxWord hw i >>> 18 < 2 ^ 14 ∧
    (rxWord hw i >>> 18).testBit 13 = (rxWord hw i).testBit 31 ∧
    ((rxWord hw i).testBit 31 = false →
      (retrieve q hw).q._tctemp i = ((rxWord hw i >>> 18 : Nat) : Int)) ∧
    ((rxWord hw i).testBit 31 = true →
      (retrieve q hw).q._tctemp i = ((rxWord hw i >>> 18 : Nat) : Int) - 16384) ∧
    ((retrieve q hw).q._tctemp i < 0 ↔ (rxWord hw i >>> 18).testBit 13 = true) ∧
    (0 ≤ (retrieve q hw).q._tctemp i ↔ (rxWord hw i >>> 18).testBit 13 = false) := by
  have hlt := rxWord_lt hw i
  have hbus : ¬ (rxWord hw i = 0x00000000 ∨ rxWord hw i = 0xFFFFFFFF) := by
    rintro (h | h)
    · exact h0 h
    · exact h1 h
  have hst : (retrieve q hw).q._tctemp i = tcField (rxWord hw i) := by
    rw [(retrieve_spec q hw).2.2.2.2.1 i, tcAfter, if_neg hbus]
  have hbit : (rxWord hw i >>> 18).testBit 13 = (rxWord hw i).testBit 31 := by
    rw [Nat.testBit_shiftRight]
  have hneg := tcField_neg_iff (rxWord hw i) hlt
  refine ⟨?_, hbit, ?_, ?_, ?_, ?_⟩
  · rw [Nat.shiftRight_eq_div_pow]
    omega
  · intro hb
    rw [hst, tcField, hbit, hb]
    simp
  · intro hb
    rw [hst, tcField, hbit, hb]
    simp
  · rw [hst]
    exact hneg
  · rw [hst]
    constructor
    · intro h
      cases hb : (rxWord hw i >>> 18).testBit 13
      · rfl
      · have := hneg.2 hb
        omega
    · intro h
      by_contra hc
      have := hneg.1 (by omega)
      rw [h] at this
      cases this

/-- Witness of C1: the word `0xFFF0FFF0` on channel 1 stores the thermocouple
value `0x3FFC - 16384 = -4`. -/
theorem C1_thermocouple_field_witness :
    rxWord hwReadings 0 = 0xFFF0FFF0 ∧
    (retrieve (QuadTC.ctor 2) hwReadings).q._tctemp 0
      = ((rxWord hwReadings 0 >>> 18 : Nat) : Int) - 16384 ∧
    (retrieve (QuadTC.ctor 2) hwReadings).q._tctemp 0 = -4 :=
  ⟨by decide,
   (C1_thermocouple_field (QuadTC.ctor 2) hwReadings 0 (by decide) (by decide)).2.2.2.1
     (by decide),
   by decide⟩

/-- C2: for every channel and every word other than `0x00000000` and
`0xFFFFFFFF` received for it, after `retrieve()` the stored ambient value is the
two's-complement value of the 12-bit field `w[15:4]`: `(w >> 4) mod 4096` when
bit 15 of `w` (bit 11 of the field) is clear, that minus 4096 when it is set; it
is negative exactly when that bit is set, and it is a function of the low 16
bits of `w` alone. -/
theorem C2_ambient_field {N : Nat} (q : QuadTC N) (hw : Hw) (i : Fin N)
    (h0 : rxWord hw i ≠ 0x00000000) (h1 : rxWord hw i ≠ 0xFFFFFFFF) :
    (rxWord hw i >>> 4 % 4096).testBit 11 = (rxWord hw i).testBit 15 ∧
    ((rxWord hw i).testBit 15 = false →
      (retrieve q hw).q._ambtemp i = ((rxWord hw i >>> 4 % 4096 : Nat) : Int)) ∧
    ((rxWord hw i).testBit 15 = true →
      (retrieve q hw).q._ambtemp i = ((rxWord hw i >>> 4 % 4096 : Nat) : Int) - 4096) ∧
    ((retrieve q hw).q._ambtemp i < 0 ↔ (rxWord hw i >>> 4 % 4096).testBit 11 = true) ∧
    (∀ {M : Nat} (q2 : QuadTC M) (hw2 : Hw) (j : Fin M),
      rxWord hw2 j ≠ 0x00000000 → rxWord hw2 j ≠ 0xFFFFFFFF →
      rxWord hw2 j % 2 ^ 16 = rxWord hw i % 2 ^ 16 →
      (retrieve q2 hw2).q._ambtemp j = (retrieve q hw).q._ambtemp i) := by
  have hbus : ¬ (rxWord hw i = 0x00000000 ∨ rxWord hw i = 0xFFFFFFFF) := by
    rintro (h | h)
    · exact h0 h
    · exact h1 h
  have hst : (retrieve q hw).q._ambtemp i = ambField (rxWord hw i) := by
    rw [(retrieve_spec q hw).2.2.2.2.2.1 i, ambAfter, if_neg hbus]
  have hbit := testBit_field_amb (rxWord hw i)
  refine ⟨hbit, ?_, ?_, ?_, ?_⟩
  · intro hb
    rw [hst, ambField, hbit, hb]
    simp
  · intro hb
    rw [hst, ambField, hbit, hb]
    simp
  · rw [hst]
    exact ambField_neg_iff _
  · intro M q2 hw2 j g0 g1 hlow
    have hbus2 : ¬ (rxWord hw2 j = 0x00000000 ∨ rxWord hw2 j = 0xFFFFFFFF) := by
      rintro (h | h)
      · exact g0 h
      · exact g1 h
    rw [hst, (retrieve_spec q2 hw2).2.2.2.2.2.1 j, ambAfter, if_neg hbus2]
    have e : rxWord hw2 j >>> 4 % 4096 = rxWord hw i >>> 4 % 4096 := by
      rw [Nat.shiftRight_eq_div_pow, Nat.shiftRight_eq_div_pow]
      omega
    unfold ambField
    rw [e]

/-- Witness of C2: the word `0xFFF0FFF0` on channel 1 stores the ambient value
`0xFFF - 4096 = -1`. -/
theorem C2_ambient_field_witness :
    rxWord hwReadings 0 = 0xFFF0FFF0 ∧
    (retrieve (QuadTC.ctor 2) hwReadings).q._ambtemp 0
      = ((rxWord hwReadings 0 >>> 4 % 4096 : Nat) : Int) - 4096 ∧
    (retrieve (QuadTC.ctor 2) hwReadings).q._ambtemp 0 = -1 :=
  ⟨by decide,
   (C2_ambient_field (QuadTC.ctor 2) hwReadings 0 (by decide) (by decide)).2.2.1 (by decide),
   by decide⟩

/-- C3 as stated fails: on the word `0x00000007` (bit 2 set, not `0xFFFFFFFF`)
the stored fault is `DISCONNECTED`, not `SHORT_VCC`. -/
theorem C3_fault_priority_counterexample :
    rxWord hwFaults 0 = 0x00000007 ∧
    rxWord hwFaults 0 ≠ 0xFFFFFFFF ∧
    (rxWord hwFaults 0).testBit 2 = true ∧
    (retrieve (QuadTC.ctor 2) hwFaults).q._faults 0 = DISCONNECTED ∧
    (retrieve (QuadTC.ctor 2) hwFaults).q._faults 0 ≠ SHORT_VCC := by
  decide

/-- C3, amended: for every word other than `0xFFFFFFFF` received for a channel,
if bit 0 is set the fault after `retrieve()` is `DISCONNECTED` whatever bits 1 and
2 are; otherwise if bit 1 is set it is `SHORT_GND` whatever bit 2 is; otherwise
if bit 2 is set it is `SHORT_VCC`; in particular a word whose low three bits are
`0b111` yields `DISCONNECTED`. -/
theorem C3_fault_order {N : Nat} (q : QuadTC N) (hw : Hw) (i : Fin N)
    (h1 : rxWord hw i ≠ 0xFFFFFFFF) :
    ((rxWord hw i).testBit 0 = true → (retrieve q hw).q._faults i = DISCONNECTED) ∧
    ((rxWord hw i).testBit 0 = false → (rxWord hw i).testBit 1 = true →
      (retrieve q hw).q._faults i = SHORT_GND) ∧
    ((rxWord hw i).testBit 0 = false → (rxWord hw i).testBit 1 = false →
      (rxWord hw i).testBit 2 = true → (retrieve q hw).q._faults i = SHORT_VCC) ∧
    (rxWord hw i % 8 = 7 → (retrieve q hw).q._faults i = DISCONNECTED) := by
  have key : ∀ k : Nat, (rxWord hw i).testBit k = true →
      (retrieve q hw).q._faults i = faultBits (rxWord hw i) := by
    intro k hk
    have hbus : ¬ (rxWord hw i = 0x00000000 ∨ rxWord hw i = 0xFFFFFFFF) := by
      rintro (h | h)
      · rw [h] at hk
        simp at hk
      · exact h1 h
    rw [(retrieve_spec q hw).2.2.2.2.2.2.1 i, faultAfter, if_neg hbus]
  refine ⟨?_, ?_, ?_, ?_⟩
  · intro b0
    rw [key 0 b0, faultBits, b0]
    simp
  · intro b0 b1
    rw [key 1 b1, faultBits, b0, b1]
    simp
  · intro b0 b1 b2
    rw [key 2 b2, faultBits, b0, b1, b2]
    simp
  · intro h7
    have b0 : (rxWord hw i).testBit 0 = true := by
      rw [(testBit_low3 _).1]
      simp
      omega
    rw [key 0 b0, faultBits, b0]
    simp

/-- Witness of the amended C3: the word `0x00000013` (bits 0 and 1 set) stores
`DISCONNECTED`. -/
theorem C3_fault_order_witness :
    rxWord hwFaults 1 = 0x00000013 ∧
    (retrieve (QuadTC.ctor 2) hwFaults).q._faults 1 = DISCONNECTED :=
  ⟨by decide, (C3_fault_order (QuadTC.ctor 2) hwFaults 1 (by decide)).1 (by decide)⟩

/-- C4: if the word received for a channel is exactly `0x00000000` or exactly
`0xFFFFFFFF`, then after `retrieve()` the channel's fault is `BUS_ERROR` and its
stored thermocouple and ambient values are what they were before the call; for
every other word the fault afterwards is not `BUS_ERROR`. -/
theorem C4_bus_error {N : Nat} (q : QuadTC N) (hw : Hw) (i : Fin N) :
    ((rxWord hw i = 0x00000000 ∨ rxWord hw i = 0xFFFFFFFF) →
      (retrieve q hw).q._faults i = BUS_ERROR ∧
      (retrieve q hw).q._tctemp i = q._tctemp i ∧
      (retrieve q hw).q._ambtemp i = q._ambtemp i) ∧
    (¬ (rxWord hw i = 0x00000000 ∨ rxWord hw i = 0xFFFFFFFF) →
      (retrieve q hw).q._faults i ≠ BUS_ERROR) := by
  obtain ⟨_, _, _, _, t, a, f, _⟩ := retrieve_spec q hw
  constructor
  · intro hbus
    rw [t i, a i, f i, tcAfter, ambAfter, faultAfter, if_pos hbus, if_pos hbus, if_pos hbus]
    exact ⟨rfl, rfl, rfl⟩
  · intro hbus
    rw [f i, faultAfter, if_neg hbus]
    exact faultBits_ne_bus _

/-- Witness of C4: a reader holding the readings -4 and -1 for channel 1 keeps
them when the next word for that channel is `0x00000000`. -/
theorem C4_bus_error_witness :
    qReadings._tctemp 0 = -4 ∧ qReadings._ambtemp 0 = -1 ∧ qReadings._faults 0 = NONE ∧
    rxWord hwDead 0 = 0x00000000 ∧
    ((retrieve qReadings hwDead).q._faults 0 = BUS_ERROR ∧
      (retrieve qReadings hwDead).q._tctemp 0 = qReadings._tctemp 0 ∧
      (retrieve qReadings hwDead).q._ambtemp 0 = qReadings._ambtemp 0) :=
  ⟨by decide, by decide, by decide, by decide,
   (C4_bus_error qReadings hwDead 0).1 (Or.inl (by decide))⟩

/-- C5: the value returned by `retrieve()` is the number of channels whose
stored fault is `NONE` after the pass; a channel that received a bus-error word
or a word with a fault bit has a fault other than `NONE` afterwards, whatever its
fault was before, so the count is the number of channels whose word is neither
`0x00000000` nor `0xFFFFFFFF` and has its three low bits clear. -/
theorem C5_good_count {N : Nat} (q : QuadTC N) (hw : Hw) :
    (retrieve q hw).good
      = (Finset.univ.filter (fun i : Fin N => (retrieve q hw).q._faults i = NONE)).card ∧
    (∀ i : Fin N,
      (rxWord hw i = 0x00000000 ∨ rxWord hw i = 0xFFFFFFFF ∨ rxWord hw i % 8 ≠ 0) →
      (retrieve q hw).q._faults i ≠ NONE) ∧
    (retrieve q hw).good
      = (Finset.univ.filter (fun i : Fin N =>
          rxWord hw i ≠ 0x00000000 ∧ rxWord hw i ≠ 0xFFFFFFFF ∧ rxWord hw i % 8 = 0)).card ∧
    (retrieve q hw).good ≤ N := by
  obtain ⟨_, _, _, _, _, _, f, g⟩ := retrieve_spec q hw
  have e1 : (retrieve q hw).good
      = (Finset.univ.filter (fun i : Fin N => (retrieve q hw).q._faults i = NONE)).card := by
    rw [g]
    congr 1
    ext j
    simp [f j]
  refine ⟨e1, ?_, ?_, ?_⟩
  · intro i hi hnone
    rw [f i, faultAfter_eq_none_iff] at hnone
    rcases hi with h | h | h
    · exact hnone.1 h
    · exact hnone.2.1 h
    · exact h hnone.2.2
  · rw [g]
    congr 1
    ext j
    simp [faultAfter_eq_none_iff]
  · rw [e1]
    calc (Finset.univ.filter (fun i : Fin N => (retrieve q hw).q._faults i = NONE)).card
        ≤ (Finset.univ : Finset (Fin N)).card := Finset.card_filter_le _ _
      _ = N := by simp

/-- Witness of C5: channel 1 of `qReadings` has fault `NONE`; after a pass in
which it receives `0x00000000` its fault is not `NONE` and the pass returns 0. -/
theorem C5_good_count_witness :
    qReadings._faults 0 = NONE ∧
    (retrieve qReadings hwDead).q._faults 0 ≠ NONE ∧
    (retrieve qReadings hwDead).good = 0 :=
  ⟨by decide, (C5_good_count qReadings hwDead).2.1 0 (Or.inl (by decide)), by decide⟩

/-! ## Accessors -/

theorem tdiv_cases (x b : Int) (hb : 0 ≤ b) :
    Int.tdiv x b = if 0 ≤ x then x / b else -((-x) / b) := by
  by_cases h : 0 ≤ x
  · rw [if_pos h, Int.tdiv_eq_ediv h hb]
  · rw [if_neg h]
    have e : x = -(-x) := by omega
    conv_lhs => rw [e]
    rw [Int.neg_tdiv, Int.tdiv_eq_ediv (by omega) hb]

/-- C6 fails on the code: with the thermocouple value 3641 stored (the chip
word `0x38E40000`), `getThermocoupleFahrenheit(1)` is -1606, while
`(((3641 * 9) / 5) / 4) + 32` is 1670. -/
theorem C6_fahrenheit_overflow :
    rxWord hwHot 0 = 0x38E40000 ∧
    (retrieve (QuadTC.ctor 1) hwHot).q._tctemp 0 = 3641 ∧
    (getThermocoupleFahrenheit (retrieve (QuadTC.ctor 1) hwHot).q 1).1 = -1606 ∧
    Int.tdiv (Int.tdiv (3641 * 9) 5) 4 + 32 = 1670 := by
  decide

/-- C7: for every valid index and every stored ambient value `r` with
`-2048 ≤ r ≤ 2047`, `getAmbientFahrenheit(idx)` is `(((r * 9) / 5) / 16) + 32`
with truncating divisions, and no intermediate value leaves the range of
`int16_t`. -/
theorem C7_ambient_fahrenheit {N : Nat} (q : QuadTC N) (idx : Nat) (h1 : 1 ≤ idx)
    (h2 : idx ≤ N) (hlo : -2048 ≤ q._ambtemp ⟨idx - 1, by omega⟩)
    (hhi : q._ambtemp ⟨idx - 1, by omega⟩ ≤ 2047) :
    (getAmbientFahrenheit q idx).1
      = Int.tdiv (Int.tdiv (q._ambtemp ⟨idx - 1, by omega⟩ * 9) 5) 16 + 32 ∧
    (-32768 ≤ q._ambtemp ⟨idx - 1, by omega⟩ * 9 ∧
      q._ambtemp ⟨idx - 1, by omega⟩ * 9 ≤ 32767) := by
  have hc : ¬ (idx = 0 ∨ idx > N) := by omega
  unfold getAmbientFahrenheit
  rw [dif_neg hc]
  dsimp only
  generalize q._ambtemp ⟨idx - 1, by omega⟩ = r at hlo hhi
  refine ⟨?_, by omega, by omega⟩
  have b5 := tdiv_cases (r * 9) 5 (by decide)
  have b16 := tdiv_cases (Int.tdiv (r * 9) 5) 16 (by decide)
  have e1 : int16_t r = r := int16_t_of_mem (by omega) (by omega)
  have e2 : int16_t (r * 9) = r * 9 := int16_t_of_mem (by omega) (by omega)
  have e3 : int16_t (Int.tdiv (r * 9) 5) = Int.tdiv (r * 9) 5 := by
    apply int16_t_of_mem
    · rw [b5]; split <;> omega
    · rw [b5]; split <;> omega
  have r5 : -3687 ≤ Int.tdiv (r * 9) 5 ∧ Int.tdiv (r * 9) 5 ≤ 3685 := by
    rw [b5]; split <;> omega
  have r16 : -231 ≤ Int.tdiv (Int.tdiv (r * 9) 5) 16 ∧ Int.tdiv (Int.tdiv (r * 9) 5) 16 ≤ 231 := by
    rw [b16]; split <;> omega
  have e4 : int16_t (Int.tdiv (Int.tdiv (r * 9) 5) 16) = Int.tdiv (Int.tdiv (r * 9) 5) 16 :=
    int16_t_of_mem (by omega) (by omega)
  rw [e1, e2, e3, e4]
  exact int16_t_of_mem (by omega) (by omega)

/-- Witness of C7: the stored ambient value 400 (25 degrees Celsius) reads as
77 degrees Fahrenheit. -/
theorem C7_ambient_fahrenheit_witness :
    qReadings._ambtemp 1 = 400 ∧ (getAmbientFahrenheit qReadings 2).1 = 77 :=
  ⟨by decide,
   (C7_ambient_fahrenheit qReadings 2 (by decide) (by decide) (by decide) (by decide)).1.trans
     (by decide)⟩

/-- C8: for every valid index, `getThermocoupleCelsius(idx)` is `r / 4` for the
stored thermocouple value `r` and `getAmbientCelsius(idx)` is `a / 16` for the
stored ambient value `a` (both of type `int16_t`), the division truncating toward
zero: a stored -1 gives 0 and a stored -5 gives -1. -/
theorem C8_celsius {N : Nat} (q : QuadTC N) (idx : Nat) (h1 : 1 ≤ idx) (h2 : idx ≤ N) :
    (-32768 ≤ q._tctemp ⟨idx - 1, by omega⟩ → q._tctemp ⟨idx - 1, by omega⟩ ≤ 32767 →
      (getThermocoupleCelsius q idx).1 = Int.tdiv (q._tctemp ⟨idx - 1, by omega⟩) 4) ∧
    (-32768 ≤ q._ambtemp ⟨idx - 1, by omega⟩ → q._ambtemp ⟨idx - 1, by omega⟩ ≤ 32767 →
      (getAmbientCelsius q idx).1 = Int.tdiv (q._ambtemp ⟨idx - 1, by omega⟩) 16) ∧
    (q._tctemp ⟨idx - 1, by omega⟩ = -1 → (getThermocoupleCelsius q idx).1 = 0) ∧
    (q._tctemp ⟨idx - 1, by omega⟩ = -5 → (getThermocoupleCelsius q idx).1 = -1) := by
  have hc : ¬ (idx = 0 ∨ idx > N) := by omega
  unfold getThermocoupleCelsius getAmbientCelsius
  rw [dif_neg hc, dif_neg hc]
  dsimp only
  generalize q._tctemp ⟨idx - 1, by omega⟩ = r
  generalize q._ambtemp ⟨idx - 1, by omega⟩ = a
  refine ⟨?_, ?_, ?_, ?_⟩
  · intro hlo hhi
    have b := tdiv_cases r 4 (by decide)
    apply int16_t_of_mem
    · rw [b]; split <;> omega
    · rw [b]; split <;> omega
  · intro hlo hhi
    have b := tdiv_cases a 16 (by decide)
    apply int16_t_of_mem
    · rw [b]; split <;> omega
    · rw [b]; split <;> omega
  · intro e
    rw [e]
    decide
  · intro e
    rw [e]
    decide

/-- Witness of C8: the stored thermocouple value -4 reads as -1 degree Celsius
and the stored ambient value -1 as 0 degrees Celsius. -/
theorem C8_celsius_witness :
    qReadings._tctemp 0 = -4 ∧ (getThermocoupleCelsius qReadings 1).1 = -1 ∧
    qReadings._ambtemp 0 = -1 ∧ (getAmbientCelsius qReadings 1).1 = 0 :=
  ⟨by decide,
   ((C8_celsius qReadings 1 (by decide) (by decide)).1 (by decide) (by decide)).trans
     (by decide),
   by decide,
   ((C8_celsius qReadings 1 (by decide) (by decide)).2.1 (by decide) (by decide)).trans
     (by decide)⟩

/-- C9: for every reader state and every index that is 0 or above `tc_count`
(in particular `tc_count + 1`), the four temperature accessors return 0 and
`getFault` returns `BUS_ERROR`, each leaving the reader as it was; for a valid
index `getFault` returns the stored fault of slot `idx - 1`. -/
theorem C9_invalid_index {N : Nat} (q : QuadTC N) :
    (∀ idx : Nat, (idx = 0 ∨ idx > N) →
      getThermocoupleCelsius q idx = (0, q) ∧
      getThermocoupleFahrenheit q idx = (0, q) ∧
      getAmbientCelsius q idx = (0, q) ∧
      getAmbientFahrenheit q idx = (0, q) ∧
      getFault q idx = (BUS_ERROR, q)) ∧
    getFault q 0 = (BUS_ERROR, q) ∧
    getFault q (N + 1) = (BUS_ERROR, q) ∧
    (∀ i : Fin N, getFault q (i.val + 1) = (q._faults i, q)) := by
  have hinv : ∀ idx : Nat, (idx = 0 ∨ idx > N) → getFault q idx = (BUS_ERROR, q) := by
    intro idx h
    unfold getFault
    rw [dif_pos h]
  refine ⟨?_, hinv 0 (Or.inl rfl), hinv (N + 1) (Or.inr (Nat.lt_succ_self N)), ?_⟩
  · intro idx h
    refine ⟨?_, ?_, ?_, ?_, hinv idx h⟩
    · unfold getThermocoupleCelsius
      rw [dif_pos h]
    · unfold getThermocoupleFahrenheit
      rw [dif_pos h]
    · unfold getAmbientCelsius
      rw [dif_pos h]
    · unfold getAmbientFahrenheit
      rw [dif_pos h]
  · intro i
    have hc : ¬ (i.val + 1 = 0 ∨ i.val + 1 > N) := by omega
    unfold getFault
    rw [dif_neg hc]
    rfl

/-- Witness of C9: on a reader of two chips holding readings, index 3 gives the
sentinels and leaves the reader unchanged. -/
theorem C9_invalid_index_witness :
    getThermocoupleCelsius qReadings 3 = (0, qReadings) ∧
    getThermocoupleFahrenheit qReadings 3 = (0, qReadings) ∧
    getAmbientCelsius qReadings 3 = (0, qReadings) ∧
    getAmbientFahrenheit qReadings 3 = (0, qReadings) ∧
    getFault qReadings 3 = (BUS_ERROR, qReadings) :=
  (C9_invalid_index qReadings).1 3 (Or.inr (by decide))

/-! ## Repeating a pass -/

theorem rxWord_congr (hw hw2 : Hw) (N : Nat)
    (hsame : ∀ k : Nat, k < 4 * N → hw2.miso (hw2.xfers + k) = hw.miso (hw.xfers + k))
    (j : Fin N) : rxWord hw2 j = rxWord hw j := by
  have hj := j.isLt
  unfold rxWord wordAt
  have a0 := hsame (4 * j.val) (by omega)
  have a1 := hsame (4 * j.val + 1) (by omega)
  have a2 := hsame (4 * j.val + 2) (by omega)
  have a3 := hsame (4 * j.val + 3) (by omega)
  simp only [← Nat.add_assoc] at a1 a2 a3
  rw [a0, a1, a2, a3]

theorem tcAfter_idem (old : Int) (w : Nat) : tcAfter (tcAfter old w) w = tcAfter old w := by
  unfold tcAfter
  by_cases h : w = 0x00000000 ∨ w = 0xFFFFFFFF
  · rw [if_pos h, if_pos h]
  · rw [if_neg h, if_neg h]

theorem ambAfter_idem (old : Int) (w : Nat) : ambAfter (ambAfter old w) w = ambAfter old w := by
  unfold ambAfter
  by_cases h : w = 0x00000000 ∨ w = 0xFFFFFFFF
  · rw [if_pos h, if_pos h]
  · rw [if_neg h, if_neg h]

/-- C10: running `retrieve()` on some responses and then again on identical
responses (the same `4 * tc_count` bytes) leaves every channel's stored
thermocouple value, ambient value and fault as they were after the first call,
and both calls return the same count. -/
theorem C10_retrieve_idempotent {N : Nat} (q : QuadTC N) (hw hw2 : Hw)
    (hsame : ∀ k : Nat, k < 4 * N → hw2.miso (hw2.xfers + k) = hw.miso (hw.xfers + k)) :
    (∀ i : Fin N,
      (retrieve (retrieve q hw).q hw2).q._tctemp i = (retrieve q hw).q._tctemp i ∧
      (retrieve (retrieve q hw).q hw2).q._ambtemp i = (retrieve q hw).q._ambtemp i ∧
      (retrieve (retrieve q hw).q hw2).q._faults i = (retrieve q hw).q._faults i) ∧
    (retrieve (retrieve q hw).q hw2).good = (retrieve q hw).good := by
  obtain ⟨_, _, _, _, t, a, f, g⟩ := retrieve_spec q hw
  obtain ⟨_, _, _, _, t2, a2, f2, g2⟩ := retrieve_spec (retrieve q hw).q hw2
  have hw_eq : ∀ j : Fin N, rxWord hw2 j = rxWord hw j := rxWord_congr hw hw2 N hsame
  constructor
  · intro i
    refine ⟨?_, ?_, ?_⟩
    · rw [t2 i, t i, hw_eq i, tcAfter_idem]
    · rw [a2 i, a i, hw_eq i, ambAfter_idem]
    · rw [f2 i, f i, hw_eq i]
  · rw [g2, g]
    simp only [hw_eq]

/-- Witness of C10: a reader holding readings makes two passes in a row over a
bus that answers `0xFFFFFFFF, 0x06401900` both times; channel 1 keeps its stale
-4 and `BUS_ERROR` after both, and both passes return 1. -/
theorem C10_retrieve_idempotent_witness :
    (retrieve qReadings hwTwice).q._tctemp 0 = -4 ∧
    (retrieve qReadings hwTwice).q._faults 0 = BUS_ERROR ∧
    (retrieve qReadings hwTwice).good = 1 ∧
    ((∀ i : Fin 2,
      (retrieve (retrieve qReadings hwTwice).q (retrieve qReadings hwTwice).hw).q._tctemp i
        = (retrieve qReadings hwTwice).q._tctemp i ∧
      (retrieve (retrieve qReadings hwTwice).q (retrieve qReadings hwTwice).hw).q._ambtemp i
        = (retrieve qReadings hwTwice).q._ambtemp i ∧
      (retrieve (retrieve qReadings hwTwice).q (retrieve qReadings hwTwice).hw).q._faults i
        = (retrieve qReadings hwTwice).q._faults i) ∧
    (retrieve (retrieve qReadings hwTwice).q (retrieve qReadings hwTwice).hw).good
      = (retrieve qReadings hwTwice).good) :=
  ⟨by decide, by decide, by decide,
   C10_retrieve_idempotent qReadings hwTwice (retrieve qReadings hwTwice).hw (by decide)⟩

/-! ## End to end -/

theorem tcField_shift (t : Nat) (h : t < 8192) : tcField (t <<< 18) = (t : Int) := by
  have e : t <<< 18 >>> 18 = t := by
    rw [Nat.shiftLeft_eq, Nat.shiftRight_eq_div_pow]
    omega
  unfold tcField
  rw [e, Nat.testBit_lt_two_pow (show t < 2 ^ 13 from h)]
  simp

/-- C11: with two chips, if chip 1 answers the word `t << 18` for some `t` in
`1..8191` (ambient field 0, no fault bit, most significant byte first) and chip 2
answers `0xFFFFFFFF`, then `retrieve()` returns 1, `getFault(1)` is `NONE`,
`getThermocoupleCelsius(1)` is `t / 4` and `getFault(2)` is `BUS_ERROR`. -/
theorem C11_end_to_end (q : QuadTC 2) (hw : Hw) (t : Nat) (h1 : 1 ≤ t) (h2 : t ≤ 8191)
    (hchip1 : rxWord hw 0 = t <<< 18) (hchip2 : rxWord hw 1 = 0xFFFFFFFF) :
    (retrieve q hw).good = 1 ∧
    (getFault (retrieve q hw).q 1).1 = NONE ∧
    (getThermocoupleCelsius (retrieve q hw).q 1).1 = ((t / 4 : Nat) : Int) ∧
    (getFault (retrieve q hw).q 2).1 = BUS_ERROR := by
  obtain ⟨_, _, _, _, tc, _, f, g⟩ := retrieve_spec q hw
  have hval : t <<< 18 = t * 262144 := by
    rw [Nat.shiftLeft_eq]
  have hbus : ¬ (t <<< 18 = 0x00000000 ∨ t <<< 18 = 0xFFFFFFFF) := by
    rw [hval]
    omega
  have f0 : faultAfter (rxWord hw 0) = NONE := by
    rw [hchip1, faultAfter_eq_none_iff, hval]
    omega
  have f1 : faultAfter (rxWord hw 1) = BUS_ERROR := by
    rw [hchip2, faultAfter, if_pos (Or.inr rfl)]
  have t0 : (retrieve q hw).q._tctemp ⟨0, by decide⟩ = (t : Int) := by
    have := tc ⟨0, by decide⟩
    rw [this]
    show tcAfter _ (rxWord hw 0) = _
    rw [hchip1, tcAfter, if_neg hbus, tcField_shift t (by omega)]
  refine ⟨?_, ?_, ?_, ?_⟩
  · rw [g, Finset.card_filter, Fin.sum_univ_two]
    show (if faultAfter (rxWord hw 0) = NONE then 1 else 0)
      + (if faultAfter (rxWord hw 1) = NONE then 1 else 0) = 1
    rw [f0, f1]
    simp
  · have := (f ⟨0, by decide⟩).trans f0
    exact this
  · have hc : ¬ (1 = 0 ∨ 1 > 2) := by decide
    unfold getThermocoupleCelsius
    rw [dif_neg hc]
    show int16_t (Int.tdiv ((retrieve q hw).q._tctemp ⟨0, by decide⟩) 4) = _
    have e : Int.tdiv (t : Int) 4 = ((t / 4 : Nat) : Int) := (Int.ofNat_tdiv t 4).symm
    rw [t0, e]
    apply int16_t_of_mem <;> omega
  · have := (f ⟨1, by decide⟩).trans f1
    exact this

/-- Witness of C11: `t = 400` (the word `0x06400000`) gives the return value 1
and 100 degrees Celsius on channel 1. -/
theorem C11_end_to_end_witness :
    rxWord hwEndToEnd 0 = 0x06400000 ∧
    (retrieve (QuadTC.ctor 2) hwEndToEnd).good = 1 ∧
    (getFault (retrieve (QuadTC.ctor 2) hwEndToEnd).q 1).1 = NONE ∧
    (getThermocoupleCelsius (retrieve (QuadTC.ctor 2) hwEndToEnd).q 1).1 = 100 ∧
    (getFault (retrieve (QuadTC.ctor 2) hwEndToEnd).q 2).1 = BUS_ERROR :=
  ⟨by decide,
   C11_end_to_end (QuadTC.ctor 2) hwEndToEnd 400 (by decide) (by decide) (by decide)
     (by decide)⟩

/-! ## Construction -/

/-- C12 fails on the code: built by `QuadTC(40, 39)` in zero-filled storage, a
reader of two chips has chip-select pin 0 for channel 2, where the default
constructor sets 38; whatever the storage held, the constructor leaves the pin
of channel 2 and all stored values and faults as they were in the storage. -/
theorem C12_constructor_storage :
    (QuadTC.ctor1 (zeroStorage 2) 40 39)._spics 1 = 0 ∧
    (QuadTC.ctor 2)._spics 1 = 38 ∧
    (QuadTC.ctor1 (zeroStorage 2) 40 39)._gpio_tcpower = 40 ∧
    (QuadTC.ctor1 (zeroStorage 2) 40 39)._spics 0 = 39 ∧
    (∀ mem : QuadTC 2,
      (QuadTC.ctor1 mem 40 39)._spics 1 = mem._spics 1 ∧
      (QuadTC.ctor1 mem 40 39)._tctemp = mem._tctemp ∧
      (QuadTC.ctor1 mem 40 39)._ambtemp = mem._ambtemp ∧
      (QuadTC.ctor1 mem 40 39)._faults = mem._faults) := by
  refine ⟨by decide, by decide, by decide, by decide, ?_⟩
  intro mem
  exact ⟨rfl, rfl, rfl, rfl⟩

/-! ## Fault bits -/

theorem faultBits_low3 (w : Nat) :
    faultBits w = if w % 2 = 1 then DISCONNECTED
      else if w / 2 % 2 = 1 then SHORT_GND
      else if w / 4 % 2 = 1 then SHORT_VCC else NONE := by
  obtain ⟨e0, e1, e2⟩ := testBit_low3 w
  unfold faultBits
  rw [e0, e1, e2]
  by_cases h0 : w % 2 = 1 <;> by_cases h1 : w / 2 % 2 = 1 <;> by_cases h2 : w / 4 % 2 = 1 <;>
    simp [h0, h1, h2]

theorem faultBits_mod8 (w : Nat) : faultBits w = faultBits (w % 8) := by
  rw [faultBits_low3 w, faultBits_low3 (w % 8)]
  have a0 : w % 8 % 2 = w % 2 := by omega
  have a1 : w % 8 / 2 % 2 = w / 2 % 2 := by omega
  have a2 : w % 8 / 4 % 2 = w / 4 % 2 := by omega
  rw [a0, a1, a2]

/-- C13: for every word other than `0x00000000` and `0xFFFFFFFF` received for a
channel, the fault after `retrieve()` is `NONE` when the low three bits are 000,
`DISCONNECTED` when they are 001, `SHORT_GND` when they are 010 and `SHORT_VCC`
when they are 100; two such words with the same low three bits give the same
fault, whatever their bits 3..31. -/
theorem C13_single_fault_bits {N : Nat} (q : QuadTC N) (hw : Hw) (i : Fin N)
    (h0 : rxWord hw i ≠ 0x00000000) (h1 : rxWord hw i ≠ 0xFFFFFFFF) :
    (rxWord hw i % 8 = 0 → (retrieve q hw).q._faults i = NONE) ∧
    (rxWord hw i % 8 = 1 → (retrieve q hw).q._faults i = DISCONNECTED) ∧
    (rxWord hw i % 8 = 2 → (retrieve q hw).q._faults i = SHORT_GND) ∧
    (rxWord hw i % 8 = 4 → (retrieve q hw).q._faults i = SHORT_VCC) ∧
    (∀ {M : Nat} (q2 : QuadTC M) (hw2 : Hw) (j : Fin M),
      rxWord hw2 j ≠ 0x00000000 → rxWord hw2 j ≠ 0xFFFFFFFF →
      rxWord hw2 j % 8 = rxWord hw i % 8 →
      (retrieve q2 hw2).q._faults j = (retrieve q hw).q._faults i) := by
  have hbus : ¬ (rxWord hw i = 0x00000000 ∨ rxWord hw i = 0xFFFFFFFF) := by
    rintro (h | h)
    · exact h0 h
    · exact h1 h
  have hst : (retrieve q hw).q._faults i = faultBits (rxWord hw i % 8) := by
    rw [(retrieve_spec q hw).2.2.2.2.2.2.1 i, faultAfter, if_neg hbus]
    exact faultBits_mod8 _
  refine ⟨?_, ?_, ?_, ?_, ?_⟩
  · intro h
    rw [hst, h]
    decide
  · intro h
    rw [hst, h]
    decide
  · intro h
    rw [hst, h]
    decide
  · intro h
    rw [hst, h]
    decide
  · intro M q2 hw2 j g0 g1 hlow
    have hbus2 : ¬ (rxWord hw2 j = 0x00000000 ∨ rxWord hw2 j = 0xFFFFFFFF) := by
      rintro (h | h)
      · exact g0 h
      · exact g1 h
    rw [hst, (retrieve_spec q2 hw2).2.2.2.2.2.2.1 j, faultAfter, if_neg hbus2,
      faultBits_mod8, hlow]

/-- Witness of C13: the word `0x06401900`, with low bits 000 and other bits
set, stores `NONE`. -/
theorem C13_single_fault_bits_witness :
    rxWord hwReadings 1 = 0x06401900 ∧
    (retrieve (QuadTC.ctor 2) hwReadings).q._faults 1 = NONE :=
  ⟨by decide,
   (C13_single_fault_bits (QuadTC.ctor 2) hwReadings 1 (by decide) (by decide)).1
     (by decide)⟩

/-! ## Fahrenheit of the thermocouple and the width of `int16_t` -/

theorem tc_fahrenheit_exact (r : Int) (hlo : -3640 ≤ r) (hhi : r ≤ 3640) :
    int16_t (int16_t (Int.tdiv (int16_t (Int.tdiv (int16_t (int16_t r * 9)) 5)) 4) + 32)
      = Int.tdiv (Int.tdiv (r * 9) 5) 4 + 32 := by
  have b5 := tdiv_cases (r * 9) 5 (by decide)
  have b4 := tdiv_cases (Int.tdiv (r * 9) 5) 4 (by decide)
  have e1 : int16_t r = r := int16_t_of_mem (by omega) (by omega)
  have e2 : int16_t (r * 9) = r * 9 := int16_t_of_mem (by omega) (by omega)
  have r5 : -6552 ≤ Int.tdiv (r * 9) 5 ∧ Int.tdiv (r * 9) 5 ≤ 6552 := by
    rw [b5]; split <;> omega
  have e3 : int16_t (Int.tdiv (r * 9) 5) = Int.tdiv (r * 9) 5 :=
    int16_t_of_mem (by omega) (by omega)
  have r4 : -1638 ≤ Int.tdiv (Int.tdiv (r * 9) 5) 4 ∧ Int.tdiv (Int.tdiv (r * 9) 5) 4 ≤ 1638 := by
    rw [b4]; split <;> omega
  have e4 : int16_t (Int.tdiv (Int.tdiv (r * 9) 5) 4) = Int.tdiv (Int.tdiv (r * 9) 5) 4 :=
    int16_t_of_mem (by omega) (by omega)
  rw [e1, e2, e3, e4]
  exact int16_t_of_mem (by omega) (by omega)

theorem tc_fahrenheit_high (r : Int) (hlo : 3641 ≤ r) (hhi : r ≤ 8191) :
    int16_t (int16_t (Int.tdiv (int16_t (Int.tdiv (int16_t (int16_t r * 9)) 5)) 4) + 32)
      < Int.tdiv (Int.tdiv (r * 9) 5) 4 + 32 := by
  have e1 : int16_t r = r := int16_t_of_mem (by omega) (by omega)
  have e2 : int16_t (r * 9) = r * 9 - 65536 := by
    unfold int16_t
    omega
  have b5 := tdiv_cases (r * 9 - 65536) 5 (by decide)
  have r5 : -6553 ≤ Int.tdiv (r * 9 - 65536) 5 ∧ Int.tdiv (r * 9 - 65536) 5 ≤ 1636 := by
    rw [b5]; split <;> omega
  have e3 : int16_t (Int.tdiv (r * 9 - 65536) 5) = Int.tdiv (r * 9 - 65536) 5 :=
    int16_t_of_mem (by omega) (by omega)
  have b4 := tdiv_cases (Int.tdiv (r * 9 - 65536) 5) 4 (by decide)
  have r4 : -1638 ≤ Int.tdiv (Int.tdiv (r * 9 - 65536) 5) 4 ∧
      Int.tdiv (Int.tdiv (r * 9 - 65536) 5) 4 ≤ 409 := by
    rw [b4]; split <;> omega
  have e4 : int16_t (Int.tdiv (Int.tdiv (r * 9 - 65536) 5) 4)
      = Int.tdiv (Int.tdiv (r * 9 - 65536) 5) 4 := int16_t_of_mem (by omega) (by omega)
  have c5 := tdiv_cases (r * 9) 5 (by decide)
  have s5 : 6553 ≤ Int.tdiv (r * 9) 5 := by
    rw [c5]; split <;> omega
  have c4 := tdiv_cases (Int.tdiv (r * 9) 5) 4 (by decide)
  have s4 : 1638 ≤ Int.tdiv (Int.tdiv (r * 9) 5) 4 := by
    rw [c4]; split <;> omega
  rw [e1, e2, e3, e4, int16_t_of_mem (by omega) (by omega)]
  omega

theorem tc_fahrenheit_low (r : Int) (hlo : -8192 ≤ r) (hhi : r ≤ -3641) :
    Int.tdiv (Int.tdiv (r * 9) 5) 4 + 32
      < int16_t (int16_t (Int.tdiv (int16_t (Int.tdiv (int16_t (int16_t r * 9)) 5)) 4) + 32) := by
  have e1 : int16_t r = r := int16_t_of_mem (by omega) (by omega)
  have e2 : int16_t (r * 9) = r * 9 + 65536 := by
    unfold int16_t
    omega
  have b5 := tdiv_cases (r * 9 + 65536) 5 (by decide)
  have r5 : -1638 ≤ Int.tdiv (r * 9 + 65536) 5 ∧ Int.tdiv (r * 9 + 65536) 5 ≤ 6553 := by
    rw [b5]; split <;> omega
  have e3 : int16_t (Int.tdiv (r * 9 + 65536) 5) = Int.tdiv (r * 9 + 65536) 5 :=
    int16_t_of_mem (by omega) (by omega)
  have b4 := tdiv_cases (Int.tdiv (r * 9 + 65536) 5) 4 (by decide)
  have r4 : -409 ≤ Int.tdiv (Int.tdiv (r * 9 + 65536) 5) 4 ∧
      Int.tdiv (Int.tdiv (r * 9 + 65536) 5) 4 ≤ 1638 := by
    rw [b4]; split <;> omega
  have e4 : int16_t (Int.tdiv (Int.tdiv (r * 9 + 65536) 5) 4)
      = Int.tdiv (Int.tdiv (r * 9 + 65536) 5) 4 := int16_t_of_mem (by omega) (by omega)
  have c5 := tdiv_cases (r * 9) 5 (by decide)
  have s5 : Int.tdiv (r * 9) 5 ≤ -6553 := by
    rw [c5]; split <;> omega
  have c4 := tdiv_cases (Int.tdiv (r * 9) 5) 4 (by decide)
  have s4 : Int.tdiv (Int.tdiv (r * 9) 5) 4 ≤ -1638 := by
    rw [c4]; split <;> omega
  rw [e1, e2, e3, e4, int16_t_of_mem (by omega) (by omega)]
  omega

/-- C18: with the `int16_t` arithmetic wrapping modulo `2^16`, for every valid
index and every stored thermocouple value `r` in `-8192..8191`,
`getThermocoupleFahrenheit(idx)` equals the exact `(((r * 9) / 5) / 4) + 32`
(truncating divisions) if and only if `-3640 ≤ r ≤ 3640`. -/
theorem C18_fahrenheit_exact_iff {N : Nat} (q : QuadTC N) (idx : Nat) (h1 : 1 ≤ idx)
    (h2 : idx ≤ N) (hlo : -8192 ≤ q._tctemp ⟨idx - 1, by omega⟩)
    (hhi : q._tctemp ⟨idx - 1, by omega⟩ ≤ 8191) :
    (getThermocoupleFahrenheit q idx).1
        = Int.tdiv (Int.tdiv (q._tctemp ⟨idx - 1, by omega⟩ * 9) 5) 4 + 32
      ↔ (-3640 ≤ q._tctemp ⟨idx - 1, by omega⟩ ∧ q._tctemp ⟨idx - 1, by omega⟩ ≤ 3640) := by
  have hc : ¬ (idx = 0 ∨ idx > N) := by omega
  unfold getThermocoupleFahrenheit
  rw [dif_neg hc]
  dsimp only
  generalize q._tctemp ⟨idx - 1, by omega⟩ = r at hlo hhi
  constructor
  · intro heq
    by_contra hout
    by_cases hpos : 3641 ≤ r
    · have := tc_fahrenheit_high r hpos hhi
      omega
    · have := tc_fahrenheit_low r hlo (by omega)
      omega
  · rintro ⟨a, b⟩
    exact tc_fahrenheit_exact r a b

/-- Witness of C18: the stored value 400 (100 degrees Celsius) is in the exact
range and reads as 212 degrees Fahrenheit. -/
theorem C18_fahrenheit_exact_iff_witness :
    (retrieve (QuadTC.ctor 2) hwEndToEnd).q._tctemp 0 = 400 ∧
    (getThermocoupleFahrenheit (retrieve (QuadTC.ctor 2) hwEndToEnd).q 1).1 = 212 :=
  ⟨by decide,
   ((C18_fahrenheit_exact_iff (retrieve (QuadTC.ctor 2) hwEndToEnd).q 1 (by decide) (by decide)
      (by decide) (by decide)).2 ⟨by decide, by decide⟩).trans (by decide)⟩

/-! ## Decoding what the chip encodes -/

theorem encode_eq (T A f : Nat) (hA : A < 4096) (hf : f < 16) :
    ((T <<< 18) ||| (A <<< 4)) ||| f = T * 2 ^ 18 + A * 2 ^ 4 + f := by
  rw [Nat.shiftLeft_eq, Nat.shiftLeft_eq]
  have s1 : T * 2 ^ 18 ||| A * 2 ^ 4 = T * 2 ^ 18 + A * 2 ^ 4 :=
    or_eq_add_of_lt T (by omega)
  rw [s1]
  have e : T * 2 ^ 18 + A * 2 ^ 4 = (T * 2 ^ 14 + A) * 2 ^ 4 := by ring
  rw [e]
  exact or_eq_add_of_lt _ hf

theorem testBit_top (n k : Nat) (h : n < 2 ^ (k + 1)) :
    n.testBit k = decide (2 ^ k ≤ n) := by
  rw [Nat.testBit_to_div_mod]
  have hp : 0 < 2 ^ k := Nat.two_pow_pos k
  have hlt : n / 2 ^ k < 2 := by
    rw [Nat.div_lt_iff_lt_mul hp]
    rw [Nat.pow_succ] at h
    omega
  have hdiv : 2 ^ k ≤ n ↔ 1 ≤ n / 2 ^ k := (Nat.one_le_div_iff hp).symm
  generalize n / 2 ^ k = d at hlt hdiv
  by_cases hle : 2 ^ k ≤ n
  · have := hdiv.1 hle
    simp only [hle, decide_True, decide_eq_true_eq]
    omega
  · have : ¬ 1 ≤ d := fun h => hle (hdiv.2 h)
    simp only [hle, decide_False, decide_eq_false_iff_not]
    omega

theorem tcField_encode (t : Int) (A f : Nat) (hlo : -8192 ≤ t) (hhi : t ≤ 8191)
    (hA : A < 4096) (hf : f < 16) :
    tcField ((t % 16384).toNat * 2 ^ 18 + A * 2 ^ 4 + f) = t := by
  have hT : (t % 16384).toNat < 16384 := by omega
  have e : ((t % 16384).toNat * 2 ^ 18 + A * 2 ^ 4 + f) >>> 18 = (t % 16384).toNat := by
    rw [Nat.shiftRight_eq_div_pow]
    omega
  unfold tcField
  rw [e, testBit_top _ 13 hT]
  by_cases hneg : 2 ^ 13 ≤ (t % 16384).toNat
  · simp only [hneg, decide_True, if_true]
    omega
  · simp only [hneg, decide_False]
    simp only [Bool.false_eq_true, if_false]
    omega

theorem ambField_encode (a : Int) (T f : Nat) (hlo : -2048 ≤ a) (hhi : a ≤ 2047)
    (hf : f < 16) :
    ambField (T * 2 ^ 18 + (a % 4096).toNat * 2 ^ 4 + f) = a := by
  have hA : (a % 4096).toNat < 4096 := by omega
  have e : (T * 2 ^ 18 + (a % 4096).toNat * 2 ^ 4 + f) >>> 4 % 4096 = (a % 4096).toNat := by
    rw [Nat.shiftRight_eq_div_pow]
    omega
  unfold ambField
  rw [e, testBit_top _ 11 hA]
  by_cases hneg : 2 ^ 11 ≤ (a % 4096).toNat
  · simp only [hneg, decide_True, if_true]
    omega
  · simp only [hneg, decide_False]
    simp only [Bool.false_eq_true, if_false]
    omega

/-- C17: let `w` be the word with the 14-bit two's-complement encoding of `t`
(`-8192 ≤ t ≤ 8191`) in bits 31..18, the 12-bit encoding of `a`
(`-2048 ≤ a ≤ 2047`) in bits 15..4, fault bits `f` in `{0, 1, 2, 4}` and bits
17, 16 and 3 clear. Unless `(t, a, f) = (0, 0, 0)`, `retrieve()` on `w` stores
exactly `t`, `a` and the fault of `f` (`NONE`, `DISCONNECTED`, `SHORT_GND`,
`SHORT_VCC` for 0, 1, 2, 4); for `(0, 0, 0)` the word is 0, the channel gets
`BUS_ERROR` and is not among the channels counted. -/
theorem C17_decode_encode {N : Nat} (q : QuadTC N) (hw : Hw) (i : Fin N) (t a : Int)
    (f : Nat) (htlo : -8192 ≤ t) (hthi : t ≤ 8191) (halo : -2048 ≤ a) (hahi : a ≤ 2047)
    (hf : f = 0 ∨ f = 1 ∨ f = 2 ∨ f = 4)
    (hword : rxWord hw i
      = (((t % 16384).toNat <<< 18) ||| ((a % 4096).toNat <<< 4)) ||| f) :
    (¬ (t = 0 ∧ a = 0 ∧ f = 0) →
      (retrieve q hw).q._tctemp i = t ∧
      (retrieve q hw).q._ambtemp i = a ∧
      (f = 0 → (retrieve q hw).q._faults i = NONE) ∧
      (f = 1 → (retrieve q hw).q._faults i = DISCONNECTED) ∧
      (f = 2 → (retrieve q hw).q._faults i = SHORT_GND) ∧
      (f = 4 → (retrieve q hw).q._faults i = SHORT_VCC)) ∧
    ((t = 0 ∧ a = 0 ∧ f = 0) →
      rxWord hw i = 0x00000000 ∧
      (retrieve q hw).q._faults i = BUS_ERROR ∧
      (retrieve q hw).good
        = (Finset.univ.filter
            (fun j : Fin N => j ≠ i ∧ (retrieve q hw).q._faults j = NONE)).card) := by
  obtain ⟨_, _, _, _, tc, amb, flt, g⟩ := retrieve_spec q hw
  have hA : (a % 4096).toNat < 4096 := by omega
  have hT : (t % 16384).toNat < 16384 := by omega
  have hf16 : f < 16 := by omega
  have hw' : rxWord hw i = (t % 16384).toNat * 2 ^ 18 + (a % 4096).toNat * 2 ^ 4 + f := by
    rw [hword, encode_eq _ _ _ hA hf16]
  constructor
  · intro hne
    have hbus : ¬ (rxWord hw i = 0x00000000 ∨ rxWord hw i = 0xFFFFFFFF) := by
      rw [hw']
      omega
    have hmod : rxWord hw i % 8 = f := by
      rw [hw']
      omega
    have hflt : (retrieve q hw).q._faults i = faultBits f := by
      rw [flt i, faultAfter, if_neg hbus, faultBits_mod8, hmod]
    refine ⟨?_, ?_, ?_, ?_, ?_, ?_⟩
    · rw [tc i, tcAfter, if_neg hbus, hw']
      exact tcField_encode t _ f htlo hthi hA hf16
    · rw [amb i, ambAfter, if_neg hbus, hw']
      exact ambField_encode a _ f halo hahi hf16
    · intro e
      rw [hflt, e]
      decide
    · intro e
      rw [hflt, e]
      decide
    · intro e
      rw [hflt, e]
      decide
    · intro e
      rw [hflt, e]
      decide
  · rintro ⟨rfl, rfl, rfl⟩
    have hz : rxWord hw i = 0x00000000 := by
      rw [hw']
      decide
    have hb : (retrieve q hw).q._faults i = BUS_ERROR := by
      rw [flt i, faultAfter, if_pos (Or.inl hz)]
    refine ⟨hz, hb, ?_⟩
    rw [g]
    congr 1
    apply Finset.filter_congr
    intro j _
    rw [← flt j]
    constructor
    · intro h
      refine ⟨?_, h⟩
      rintro rfl
      rw [hb] at h
      cases h
    · intro h
      exact h.2

/-- Witness of C17: the encoding `0xFFF0FFF1` of thermocouple -4, ambient -1
and fault bit 0 is decoded to -4, -1 and `DISCONNECTED`. -/
theorem C17_decode_encode_witness :
    rxWord hwEncoded 0 = 0xFFF0FFF1 ∧
    (retrieve (QuadTC.ctor 1) hwEncoded).q._tctemp 0 = -4 ∧
    (retrieve (QuadTC.ctor 1) hwEncoded).q._ambtemp 0 = -1 ∧
    (retrieve (QuadTC.ctor 1) hwEncoded).q._faults 0 = DISCONNECTED :=
  ⟨by decide,
   ((C17_decode_encode (QuadTC.ctor 1) hwEncoded 0 (-4) (-1) 1 (by decide) (by decide)
      (by decide) (by decide) (by decide) (by decide)).1 (by decide)).1,
   ((C17_decode_encode (QuadTC.ctor 1) hwEncoded 0 (-4) (-1) 1 (by decide) (by decide)
      (by decide) (by decide) (by decide) (by decide)).1 (by decide)).2.1,
   ((C17_decode_encode (QuadTC.ctor 1) hwEncoded 0 (-4) (-1) 1 (by decide) (by decide)
      (by decide) (by decide) (by decide) (by decide)).1 (by decide)).2.2.2.1 rfl⟩

/-! ## Loops over the channels -/

theorem forUpTo_keep {σ α : Type} (N : Nat) (body : Fin N → σ → σ) (proj : σ → α)
    (hbody : ∀ i s, proj (body i s) = proj s) (k : Nat) (h : k ≤ N) (s : σ) :
    proj (forUpTo N body k h s) = proj s := by
  induction k with
  | zero => rfl
  | succ k ih =>
    simp only [forUpTo]
    rw [hbody, ih]

theorem forUpTo_set {σ κ α : Type} [DecidableEq κ] (N : Nat) (body : Fin N → σ → σ)
    (proj : σ → κ → α) (key : Fin N → κ) (v : α)
    (hbody : ∀ i s p, proj (body i s) p = if key i = p then v else proj s p)
    (k : Nat) (h : k ≤ N) (s : σ) (p : κ) :
    proj (forUpTo N body k h s) p
      = if ∃ j : Fin N, j.val < k ∧ key j = p then v else proj s p := by
  induction k with
  | zero => simp [forUpTo]
  | succ k ih =>
    simp only [forUpTo]
    rw [hbody, ih (Nat.le_of_succ_le h)]
    by_cases hk : key ⟨k, h⟩ = p
    · rw [if_pos hk, if_pos ⟨⟨k, h⟩, Nat.lt_succ_self k, hk⟩]
    · rw [if_neg hk]
      by_cases hex : ∃ j : Fin N, j.val < k ∧ key j = p
      · obtain ⟨j, hj, hjp⟩ := hex
        rw [if_pos ⟨j, hj, hjp⟩, if_pos ⟨j, Nat.lt_succ_of_lt hj, hjp⟩]
      · rw [if_neg hex, if_neg]
        rintro ⟨j, hj, hjp⟩
        by_cases hjk : j.val = k
        · have : j = ⟨k, h⟩ := Fin.ext hjk
          exact hk (this ▸ hjp)
        · exact hex ⟨j, by omega, hjp⟩

theorem forLoop_keep {σ α : Type} (N : Nat) (body : Fin N → σ → σ) (proj : σ → α)
    (hbody : ∀ i s, proj (body i s) = proj s) (s : σ) :
    proj (forLoop N body s) = proj s :=
  forUpTo_keep N body proj hbody N (Nat.le_refl N) s

theorem forLoop_set {σ κ α : Type} [DecidableEq κ] (N : Nat) (body : Fin N → σ → σ)
    (proj : σ → κ → α) (key : Fin N → κ) (v : α)
    (hbody : ∀ i s p, proj (body i s) p = if key i = p then v else proj s p)
    (s : σ) (p : κ) :
    proj (forLoop N body s) p = if ∃ j : Fin N, key j = p then v else proj s p := by
  have := forUpTo_set N body proj key v hbody N (Nat.le_refl N) s p
  unfold forLoop
  rw [this]
  have e : (∃ j : Fin N, j.val < N ∧ key j = p) ↔ ∃ j : Fin N, key j = p :=
    ⟨fun ⟨j, _, hj⟩ => ⟨j, hj⟩, fun ⟨j, hj⟩ => ⟨j, j.isLt, hj⟩⟩
  by_cases hex : ∃ j : Fin N, key j = p
  · rw [if_pos hex, if_pos (e.2 hex)]
  · rw [if_neg hex, if_neg (fun h => hex (e.1 h))]

theorem update_apply_ite {κ α : Type} [DecidableEq κ] (f : κ → α) (a : κ) (v : α) (p : κ) :
    Function.update f a v p = if a = p then v else f p := by
  by_cases h : a = p
  · subst h
    rw [Function.update_same, if_pos rfl]
  · rw [Function.update_noteq (fun e => h e.symm), if_neg h]

/-! ## `begin()` and `stop()` -/

theorem begin_state {N : Nat} (q : QuadTC N) (hw : Hw) :
    (begin q hw).1._spics = q._spics ∧
    (begin q hw).1._gpio_tcpower = q._gpio_tcpower ∧
    (∀ i : Fin N, (begin q hw).1._tctemp i = 0) ∧
    (∀ i : Fin N, (begin q hw).1._ambtemp i = 0) ∧
    (∀ i : Fin N, (begin q hw).1._faults i = NONE) := by
  have hs := forLoop_keep N
    (fun (i : Fin N) (q : QuadTC N) =>
      { q with _tctemp := Function.update q._tctemp i 0,
               _ambtemp := Function.update q._ambtemp i 0,
               _faults := Function.update q._faults i NONE })
    (fun q : QuadTC N => q._spics) (fun _ _ => rfl) q
  have hg := forLoop_keep N
    (fun (i : Fin N) (q : QuadTC N) =>
      { q with _tctemp := Function.update q._tctemp i 0,
               _ambtemp := Function.update q._ambtemp i 0,
               _faults := Function.update q._faults i NONE })
    (fun q : QuadTC N => q._gpio_tcpower) (fun _ _ => rfl) q
  have ht := forLoop_set N
    (fun (i : Fin N) (q : QuadTC N) =>
      { q with _tctemp := Function.update q._tctemp i 0,
               _ambtemp := Function.update q._ambtemp i 0,
               _faults := Function.update q._faults i NONE })
    (fun q : QuadTC N => q._tctemp) id 0
    (fun i s p => update_apply_ite s._tctemp i 0 p) q
  have ha := forLoop_set N
    (fun (i : Fin N) (q : QuadTC N) =>
      { q with _tctemp := Function.update q._tctemp i 0,
               _ambtemp := Function.update q._ambtemp i 0,
               _faults := Function.update q._faults i NONE })
    (fun q : QuadTC N => q._ambtemp) id 0
    (fun i s p => update_apply_ite s._ambtemp i 0 p) q
  have hf := forLoop_set N
    (fun (i : Fin N) (q : QuadTC N) =>
      { q with _tctemp := Function.update q._tctemp i 0,
               _ambtemp := Function.update q._ambtemp i 0,
               _faults := Function.update q._faults i NONE })
    (fun q : QuadTC N => q._faults) id NONE
    (fun i s p => update_apply_ite s._faults i NONE p) q
  unfold begin
  dsimp only
  refine ⟨hs, hg, ?_, ?_, ?_⟩
  · intro i
    rw [ht i, if_pos ⟨i, rfl⟩]
  · intro i
    rw [ha i, if_pos ⟨i, rfl⟩]
  · intro i
    rw [hf i, if_pos ⟨i, rfl⟩]

theorem begin_pins {N : Nat} (q : QuadTC N) (hw : Hw) (p : Nat) :
    (begin q hw).2.mode p
      = (if q._gpio_tcpower = p then PinMode.OUTPUT
         else if ∃ j : Fin N, q._spics j = p then PinMode.OUTPUT else hw.mode p) ∧
    (begin q hw).2.level p
      = (if q._gpio_tcpower = p then LOW
         else if ∃ j : Fin N, q._spics j = p then HIGH else hw.level p) := by
  have hm := forLoop_set N
    (fun i hw => digitalWrite (pinMode hw (q._spics i) PinMode.OUTPUT) (q._spics i) HIGH)
    (fun hw : Hw => hw.mode) q._spics PinMode.OUTPUT
    (fun i s p => update_apply_ite s.mode (q._spics i) PinMode.OUTPUT p) hw p
  have hl := forLoop_set N
    (fun i hw => digitalWrite (pinMode hw (q._spics i) PinMode.OUTPUT) (q._spics i) HIGH)
    (fun hw : Hw => hw.level) q._spics HIGH
    (fun i s p => update_apply_ite s.level (q._spics i) HIGH p) hw p
  unfold begin
  dsimp only [digitalWrite, pinMode]
  dsimp only [digitalWrite, pinMode] at hm hl
  constructor
  · rw [update_apply_ite, hm]
  · rw [update_apply_ite, hl]

theorem stop_pins {N : Nat} (q : QuadTC N) (hw : Hw) (p : Nat) :
    (stop q hw).1 = q ∧
    (stop q hw).2.mode = hw.mode ∧
    (stop q hw).2.level p
      = (if ∃ j : Fin N, q._spics j = p then HIGH
         else if q._gpio_tcpower = p then LOW else hw.level p) := by
  have hl := forLoop_set N (fun i hw => digitalWrite hw (q._spics i) HIGH)
    (fun hw : Hw => hw.level) q._spics HIGH
    (fun i s p => update_apply_ite s.level (q._spics i) HIGH p)
    (digitalWrite hw q._gpio_tcpower LOW) p
  have hm := forLoop_keep N (fun i hw => digitalWrite hw (q._spics i) HIGH)
    (fun hw : Hw => hw.mode) (fun _ _ => rfl) (digitalWrite hw q._gpio_tcpower LOW)
  unfold stop
  dsimp only
  refine ⟨rfl, ?_, ?_⟩
  · exact hm
  · rw [hl]
    dsimp only [digitalWrite]
    rw [update_apply_ite]

/-- C14 as stated fails: for the reader built by `QuadTC(40, 40)`, whose
chip-select pin is its power pin, that chip-select pin is at logic low after
`begin()`, not at logic high. -/
theorem C14_begin_counterexample :
    qShared._spics 0 = 40 ∧ qShared._gpio_tcpower = 40 ∧
    (begin qShared hwIdle).2.level ((begin qShared hwIdle).1._spics 0) = LOW ∧
    (begin qShared hwIdle).2.level ((begin qShared hwIdle).1._spics 0) ≠ HIGH := by
  decide

/-- C14, amended: for every reader state, after `begin()` every channel has
thermocouple value 0, ambient value 0 and fault `NONE`, the configured power pin
and chip-select pins are unchanged, every chip-select pin is an output, every
chip-select pin that is not the power pin is at logic high, and the power pin is
an output at logic low. -/
theorem C14_begin {N : Nat} (q : QuadTC N) (hw : Hw) :
    (∀ i : Fin N, (begin q hw).1._tctemp i = 0 ∧ (begin q hw).1._ambtemp i = 0 ∧
      (begin q hw).1._faults i = NONE) ∧
    (begin q hw).1._spics = q._spics ∧
    (begin q hw).1._gpio_tcpower = q._gpio_tcpower ∧
    (∀ i : Fin N, (begin q hw).2.mode (q._spics i) = PinMode.OUTPUT) ∧
    (∀ i : Fin N, q._spics i ≠ q._gpio_tcpower →
      (begin q hw).2.level (q._spics i) = HIGH) ∧
    (begin q hw).2.mode q._gpio_tcpower = PinMode.OUTPUT ∧
    (begin q hw).2.level q._gpio_tcpower = LOW := by
  obtain ⟨hs, hg, ht, ha, hf⟩ := begin_state q hw
  refine ⟨fun i => ⟨ht i, ha i, hf i⟩, hs, hg, ?_, ?_, ?_, ?_⟩
  · intro i
    rw [(begin_pins q hw (q._spics i)).1]
    by_cases hp : q._gpio_tcpower = q._spics i
    · rw [if_pos hp]
    · rw [if_neg hp, if_pos ⟨i, rfl⟩]
  · intro i hne
    rw [(begin_pins q hw (q._spics i)).2, if_neg (fun e => hne e.symm), if_pos ⟨i, rfl⟩]
  · rw [(begin_pins q hw q._gpio_tcpower).1, if_pos rfl]
  · rw [(begin_pins q hw q._gpio_tcpower).2, if_pos rfl]

/-- Witness of the amended C14: a reader holding readings, with chip-select pin
39 and power pin 40, has the reading of channel 1 cleared by `begin()` and pin 39
at logic high. -/
theorem C14_begin_witness :
    qReadings._tctemp 0 = -4 ∧ qReadings._spics 0 = 39 ∧ qReadings._gpio_tcpower = 40 ∧
    (begin qReadings hwIdle).1._tctemp 0 = 0 ∧
    (begin qReadings hwIdle).2.level (qReadings._spics 0) = HIGH :=
  ⟨by decide, by decide, by decide,
   ((C14_begin qReadings hwIdle).1 0).1,
   (C14_begin qReadings hwIdle).2.2.2.2.1 0 (by decide)⟩

/-- C15: calling `stop()` twice in a row leaves the same pin levels, pin
directions and reader state as calling it once; after `stop()` every chip-select
pin is at logic high, the power pin is at logic low when it is not one of the
chip-select pins, and the reader state is as before. -/
theorem C15_stop_idempotent {N : Nat} (q : QuadTC N) (hw : Hw) :
    (stop (stop q hw).1 (stop q hw).2).2.level = (stop q hw).2.level ∧
    (stop (stop q hw).1 (stop q hw).2).2.mode = (stop q hw).2.mode ∧
    (stop (stop q hw).1 (stop q hw).2).1 = (stop q hw).1 ∧
    (stop q hw).1 = q ∧
    (∀ i : Fin N, (stop q hw).2.level (q._spics i) = HIGH) ∧
    ((∀ i : Fin N, q._spics i ≠ q._gpio_tcpower) →
      (stop q hw).2.level q._gpio_tcpower = LOW) := by
  have hq : (stop q hw).1 = q := (stop_pins q hw 0).1
  refine ⟨?_, ?_, ?_, hq, ?_, ?_⟩
  · funext p
    rw [hq, (stop_pins q (stop q hw).2 p).2.2, (stop_pins q hw p).2.2]
    by_cases hcs : ∃ j : Fin N, q._spics j = p
    · rw [if_pos hcs, if_pos hcs]
    · rw [if_neg hcs, if_neg hcs]
      by_cases hp : q._gpio_tcpower = p
      · rw [if_pos hp, if_pos hp]
      · rw [if_neg hp, if_neg hp]
  · rw [hq, (stop_pins q (stop q hw).2 0).2.1]
  · rw [hq]
    exact (stop_pins q (stop q hw).2 0).1
  · intro i
    rw [(stop_pins q hw (q._spics i)).2.2, if_pos ⟨i, rfl⟩]
  · intro hne
    rw [(stop_pins q hw q._gpio_tcpower).2.2, if_neg, if_pos rfl]
    rintro ⟨j, hj⟩
    exact hne j hj

/-- Witness of C15: for a reader with chip-select pins 39, 38 and power pin 40,
pin 40 is at logic low after `stop()`. -/
theorem C15_stop_idempotent_witness :
    qReadings._spics 0 = 39 ∧ qReadings._spics 1 = 38 ∧
    (stop qReadings hwIdle).2.level qReadings._gpio_tcpower = LOW :=
  ⟨by decide, by decide, (C15_stop_idempotent qReadings hwIdle).2.2.2.2.2 (by decide)⟩

/-! ## Range of the stored values -/

theorem tcField_range (w : Nat) (h : w < 2 ^ 32) : -8192 ≤ tcField w ∧ tcField w ≤ 8191 := by
  have hn : w >>> 18 < 2 ^ (13 + 1) := by
    rw [Nat.shiftRight_eq_div_pow]
    omega
  unfold tcField
  rw [testBit_top _ 13 hn]
  by_cases hneg : 2 ^ 13 ≤ w >>> 18
  · simp only [hneg, decide_True, if_true]
    omega
  · simp only [hneg, decide_False]
    simp only [Bool.false_eq_true, if_false]
    omega

theorem ambField_range (w : Nat) : -2048 ≤ ambField w ∧ ambField w ≤ 2047 := by
  have hn : w >>> 4 % 4096 < 2 ^ (11 + 1) := Nat.mod_lt _ (by decide)
  unfold ambField
  rw [testBit_top _ 11 hn]
  by_cases hneg : 2 ^ 11 ≤ w >>> 4 % 4096
  · simp only [hneg, decide_True, if_true]
    omega
  · simp only [hneg, decide_False]
    simp only [Bool.false_eq_true, if_false]
    omega

theorem retrieve_inRange {N : Nat} (q : QuadTC N) (hw : Hw) (h : InRange q) :
    InRange (retrieve q hw).q := by
  obtain ⟨_, _, _, _, tc, amb, _, _⟩ := retrieve_spec q hw
  intro i
  rw [tc i, amb i, tcAfter, ambAfter]
  by_cases hbus : rxWord hw i = 0x00000000 ∨ rxWord hw i = 0xFFFFFFFF
  · rw [if_pos hbus, if_pos hbus]
    exact h i
  · rw [if_neg hbus, if_neg hbus]
    exact ⟨tcField_range _ (rxWord_lt hw i), ambField_range _⟩

theorem begin_inRange {N : Nat} (q : QuadTC N) (hw : Hw) : InRange (begin q hw).1 := by
  obtain ⟨_, _, ht, ha, _⟩ := begin_state q hw
  intro i
  rw [ht i, ha i]
  decide

theorem ctor_inRange (N : Nat) : InRange (QuadTC.ctor N) := by
  intro i
  show ((-8192 : Int) ≤ 0 ∧ (0 : Int) ≤ 8191) ∧ ((-2048 : Int) ≤ 0 ∧ (0 : Int) ≤ 2047)
  decide

theorem accessor_state {N : Nat} (q : QuadTC N) (idx : Nat) :
    (getThermocoupleCelsius q idx).2 = q ∧ (getThermocoupleFahrenheit q idx).2 = q ∧
    (getAmbientCelsius q idx).2 = q ∧ (getAmbientFahrenheit q idx).2 = q ∧
    (getFault q idx).2 = q := by
  unfold getThermocoupleCelsius getThermocoupleFahrenheit getAmbientCelsius
    getAmbientFahrenheit getFault
  by_cases h : idx = 0 ∨ idx > N
  · simp only [dif_pos h, and_self]
  · simp only [dif_neg h, and_self]

theorem call_inRange {N : Nat} (s : QuadTC N × Hw) (c : Call) (h : InRange s.1) :
    InRange (call s c).1 := by
  cases c with
  | begin => exact begin_inRange s.1 s.2
  | end_ => exact h
  | start => exact h
  | stop => exact h
  | retrieve => exact retrieve_inRange s.1 s.2 h
  | getThermocoupleCelsius idx =>
    show InRange (getThermocoupleCelsius s.1 idx).2
    rw [(accessor_state s.1 idx).1]
    exact h
  | getThermocoupleFahrenheit idx =>
    show InRange (getThermocoupleFahrenheit s.1 idx).2
    rw [(accessor_state s.1 idx).2.1]
    exact h
  | getAmbientCelsius idx =>
    show InRange (getAmbientCelsius s.1 idx).2
    rw [(accessor_state s.1 idx).2.2.1]
    exact h
  | getAmbientFahrenheit idx =>
    show InRange (getAmbientFahrenheit s.1 idx).2
    rw [(accessor_state s.1 idx).2.2.2.1]
    exact h
  | getFault idx =>
    show InRange (getFault s.1 idx).2
    rw [(accessor_state s.1 idx).2.2.2.2]
    exact h

theorem calls_inRange {N : Nat} (cs : List Call) (s : QuadTC N × Hw) (h : InRange s.1) :
    InRange (calls s cs).1 := by
  induction cs generalizing s with
  | nil => exact h
  | cons c cs ih => exact ih (call s c) (call_inRange s c h)

theorem celsius_range {N : Nat} (q : QuadTC N) (h : InRange q) (idx : Nat) :
    (-2048 ≤ (getThermocoupleCelsius q idx).1 ∧ (getThermocoupleCelsius q idx).1 ≤ 2047) ∧
    (-128 ≤ (getAmbientCelsius q idx).1 ∧ (getAmbientCelsius q idx).1 ≤ 127) := by
  unfold getThermocoupleCelsius getAmbientCelsius
  by_cases hc : idx = 0 ∨ idx > N
  · rw [dif_pos hc, dif_pos hc]
    show ((-2048 : Int) ≤ 0 ∧ (0 : Int) ≤ 2047) ∧ ((-128 : Int) ≤ 0 ∧ (0 : Int) ≤ 127)
    decide
  · rw [dif_neg hc, dif_neg hc]
    dsimp only
    obtain ⟨⟨t1, t2⟩, ⟨a1, a2⟩⟩ := h ⟨idx - 1, by omega⟩
    generalize q._tctemp ⟨idx - 1, by omega⟩ = r at t1 t2
    generalize q._ambtemp ⟨idx - 1, by omega⟩ = a at a1 a2
    have b4 := tdiv_cases r 4 (by decide)
    have b16 := tdiv_cases a 16 (by decide)
    have r4 : -2048 ≤ Int.tdiv r 4 ∧ Int.tdiv r 4 ≤ 2047 := by
      rw [b4]; split <;> omega
    have r16 : -128 ≤ Int.tdiv a 16 ∧ Int.tdiv a 16 ≤ 127 := by
      rw [b16]; split <;> omega
    rw [int16_t_of_mem (by omega) (by omega), int16_t_of_mem (by omega) (by omega)]
    exact ⟨r4, r16⟩

/-- C19: in every reader state reached from the default constructor or from
`begin()` by any sequence of `retrieve()`, `begin()`, `start()`, `stop()`,
`end()` and accessor calls, on any hardware state and with any bus answers, every
stored thermocouple value lies in `-8192..8191` and every stored ambient value in
`-2048..2047`; hence `getThermocoupleCelsius` is in `-2048..2047` and
`getAmbientCelsius` in `-128..127` for every index. -/
theorem C19_range_invariant {N : Nat} (q0 : QuadTC N) (hw0 : Hw) (cs : List Call) :
    (∀ i : Fin N,
      (-8192 ≤ (calls (QuadTC.ctor N, hw0) cs).1._tctemp i ∧
        (calls (QuadTC.ctor N, hw0) cs).1._tctemp i ≤ 8191) ∧
      (-2048 ≤ (calls (QuadTC.ctor N, hw0) cs).1._ambtemp i ∧
        (calls (QuadTC.ctor N, hw0) cs).1._ambtemp i ≤ 2047)) ∧
    (∀ i : Fin N,
      (-8192 ≤ (calls (begin q0 hw0) cs).1._tctemp i ∧
        (calls (begin q0 hw0) cs).1._tctemp i ≤ 8191) ∧
      (-2048 ≤ (calls (begin q0 hw0) cs).1._ambtemp i ∧
        (calls (begin q0 hw0) cs).1._ambtemp i ≤ 2047)) ∧
    (∀ idx : Nat,
      (-2048 ≤ (getThermocoupleCelsius (calls (QuadTC.ctor N, hw0) cs).1 idx).1 ∧
        (getThermocoupleCelsius (calls (QuadTC.ctor N, hw0) cs).1 idx).1 ≤ 2047) ∧
      (-128 ≤ (getAmbientCelsius (calls (QuadTC.ctor N, hw0) cs).1 idx).1 ∧
        (getAmbientCelsius (calls (QuadTC.ctor N, hw0) cs).1 idx).1 ≤ 127)) ∧
    (∀ idx : Nat,
      (-2048 ≤ (getThermocoupleCelsius (calls (begin q0 hw0) cs).1 idx).1 ∧
        (getThermocoupleCelsius (calls (begin q0 hw0) cs).1 idx).1 ≤ 2047) ∧
      (-128 ≤ (getAmbientCelsius (calls (begin q0 hw0) cs).1 idx).1 ∧
        (getAmbientCelsius (calls (begin q0 hw0) cs).1 idx).1 ≤ 127)) := by
  have hc : InRange (calls (QuadTC.ctor N, hw0) cs).1 :=
    calls_inRange cs (QuadTC.ctor N, hw0) (ctor_inRange N)
  have hb : InRange (calls (begin q0 hw0) cs).1 :=
    calls_inRange cs (begin q0 hw0) (begin_inRange q0 hw0)
  exact ⟨hc, hb, celsius_range _ hc, celsius_range _ hb⟩

/-! ## The primitive calls of a pass -/

theorem retrieve_data_hw {N : Nat} (q : QuadTC N) (hw : Hw) (i : Fin N) :
    (_retrieve_data q hw (i.val + 1)).2.log
      = hw.log ++ chanEvents (q._spics i) hw.miso hw.xfers ∧
    (_retrieve_data q hw (i.val + 1)).2.level
      = replay hw.level (chanEvents (q._spics i) hw.miso hw.xfers) ∧
    (_retrieve_data q hw (i.val + 1)).2.mode = hw.mode := by
  have hc : ¬ (i.val + 1 = 0 ∨ i.val + 1 > N) := by omega
  have hr : List.range 4 = [0, 1, 2, 3] := rfl
  unfold _retrieve_data
  rw [dif_neg hc]
  refine ⟨?_, ?_, ?_⟩
  · simp only [hr, List.foldl, _retrieve_data_byte, transfer, digitalWrite, chanEvents,
      List.append_assoc, List.singleton_append, Nat.add_assoc]
    rfl
  · simp only [hr, List.foldl, _retrieve_data_byte, transfer, digitalWrite, chanEvents,
      replay, applyEvent]
    rfl
  · simp only [hr, List.foldl, _retrieve_data_byte, transfer, digitalWrite]

theorem replay_append (lv : Nat → Bool) (a b : List Event) :
    replay lv (a ++ b) = replay (replay lv a) b := by
  unfold replay
  rw [List.foldl_append]

theorem retrieve_hw_upto {N : Nat} (q : QuadTC N) (hw : Hw) (k : Nat) (h : k ≤ N) :
    (forUpTo N retrieve_body k h { good := 0, q := q, hw := hw }).hw.log
      = hw.log ++ passEvents q hw.miso hw.xfers k h ∧
    (forUpTo N retrieve_body k h { good := 0, q := q, hw := hw }).hw.level
      = replay hw.level (passEvents q hw.miso hw.xfers k h) ∧
    (forUpTo N retrieve_body k h { good := 0, q := q, hw := hw }).hw.mode = hw.mode := by
  induction k with
  | zero =>
    simp only [forUpTo, passEvents, List.append_nil, replay, List.foldl]
    exact ⟨trivial, trivial, trivial⟩
  | succ k ih =>
    obtain ⟨l1, l2, l3⟩ := ih (Nat.le_of_succ_le h)
    obtain ⟨i1, i2, i3, _, _, _, _, _⟩ := retrieve_upto q hw 0 k (Nat.le_of_succ_le h)
    obtain ⟨d1, d2, d3⟩ := retrieve_data_hw
      (forUpTo N retrieve_body k (Nat.le_of_succ_le h) { good := 0, q := q, hw := hw }).q
      (forUpTo N retrieve_body k (Nat.le_of_succ_le h) { good := 0, q := q, hw := hw }).hw
      ⟨k, h⟩
    rw [i1, i2, i3] at d1 d2
    simp only [forUpTo, passEvents]
    rw [retrieve_body_eq]
    refine ⟨?_, ?_, ?_⟩
    · show (_retrieve_data _ _ _).2.log = _
      rw [d1, l1, List.append_assoc]
    · show (_retrieve_data _ _ _).2.level = _
      rw [d2, l2, replay_append]
    · show (_retrieve_data _ _ _).2.mode = _
      rw [d3, l3]

theorem retrieve_hw {N : Nat} (q : QuadTC N) (hw : Hw) :
    (retrieve q hw).hw.log = hw.log ++ passEvents q hw.miso hw.xfers N (Nat.le_refl N) ∧
    (retrieve q hw).hw.level
      = replay hw.level (passEvents q hw.miso hw.xfers N (Nat.le_refl N)) ∧
    (retrieve q hw).hw.mode = hw.mode :=
  retrieve_hw_upto q hw N (Nat.le_refl N)

theorem countTransfers_append (a b : List Event) :
    countTransfers (a ++ b) = countTransfers a + countTransfers b := by
  induction a with
  | nil => simp [countTransfers]
  | cons e es ih =>
    cases e <;> simp [countTransfers, ih]
    omega

theorem countTransfers_passEvents {N : Nat} (q : QuadTC N) (miso : Nat → Nat) (pos : Nat)
    (k : Nat) (h : k ≤ N) : countTransfers (passEvents q miso pos k h) = 4 * k := by
  induction k with
  | zero => rfl
  | succ k ih =>
    simp only [passEvents]
    rw [countTransfers_append, ih (Nat.le_of_succ_le h)]
    simp only [chanEvents, countTransfers]
    omega

theorem along_append (P : (Nat → Bool) → Prop) (X : Nat → Nat → (Nat → Bool) → Prop)
    (a b : List Event) (lv : Nat → Bool) (k : Nat) (ha : Along P X lv k a)
    (hb : Along P X (replay lv a) (k + countTransfers a) b) : Along P X lv k (a ++ b) := by
  induction a generalizing lv k with
  | nil => simpa [replay, countTransfers] using hb
  | cons e es ih =>
    cases e with
    | pinMode pin m =>
      simp only [List.cons_append, Along] at ha ⊢
      exact ⟨ha.1, ih lv k ha.2 hb⟩
    | digitalWrite pin v =>
      simp only [List.cons_append, Along] at ha ⊢
      exact ⟨ha.1, ih _ k ha.2 hb⟩
    | transfer sent r =>
      simp only [List.cons_append, Along] at ha ⊢
      refine ⟨ha.1, ha.2.1, ih lv (k + 1) ha.2.2 ?_⟩
      have e : k + 1 + countTransfers es = k + countTransfers (Event.transfer sent r :: es) := by
        simp only [countTransfers]
        omega
      rw [e]
      exact hb

theorem along_prefix (P : (Nat → Bool) → Prop) (X : Nat → Nat → (Nat → Bool) → Prop)
    (pre post : List Event) (lv : Nat → Bool) (k : Nat)
    (h : Along P X lv k (pre ++ post)) : P (replay lv pre) := by
  induction pre generalizing lv k with
  | nil =>
    cases post with
    | nil => exact h
    | cons e es =>
      cases e <;> exact h.1
  | cons e es ih =>
    cases e with
    | pinMode pin m => exact ih lv k h.2
    | digitalWrite pin v => exact ih _ k h.2
    | transfer sent r => exact ih lv (k + 1) h.2.2

theorem along_transfer (P : (Nat → Bool) → Prop) (X : Nat → Nat → (Nat → Bool) → Prop)
    (pre post : List Event) (sent r : Nat) (lv : Nat → Bool) (k : Nat)
    (h : Along P X lv k (pre ++ Event.transfer sent r :: post)) :
    X (k + countTransfers pre) r (replay lv pre) := by
  induction pre generalizing lv k with
  | nil => exact h.2.1
  | cons e es ih =>
    cases e with
    | pinMode pin m => exact ih lv k h.2
    | digitalWrite pin v => exact ih _ k h.2
    | transfer s2 r2 =>
      have := ih lv (k + 1) h.2.2
      have e : k + 1 + countTransfers es = k + countTransfers (Event.transfer s2 r2 :: es) := by
        simp only [countTransfers]
        omega
      rw [e] at this
      exact this

theorem chanEvents_along {N : Nat} (q : QuadTC N) (miso : Nat → Nat) (pos : Nat)
    (lv : Nat → Bool) (hinj : Function.Injective q._spics)
    (hhigh : ∀ i : Fin N, lv (q._spics i) = HIGH) (c : Fin N) :
    Along
      (fun lv => ∀ i j : Fin N, lv (q._spics i) = LOW → lv (q._spics j) = LOW → i = j)
      (fun k r lv => r = miso (pos + k) % 256 ∧
        ∀ j : Fin N, (lv (q._spics j) = LOW ↔ j.val = k / 4))
      lv (4 * c.val) (chanEvents (q._spics c) miso (pos + 4 * c.val)) ∧
    (∀ i : Fin N, replay lv (chanEvents (q._spics c) miso (pos + 4 * c.val)) (q._spics i)
      = HIGH) := by
  have hne : HIGH ≠ LOW := by decide
  have hP0 : ∀ i j : Fin N, lv (q._spics i) = LOW → lv (q._spics j) = LOW → i = j := by
    intro i j hi _
    rw [hhigh i] at hi
    exact absurd hi hne
  have h1 : ∀ j : Fin N, Function.update lv (q._spics c) LOW (q._spics j) = LOW ↔ j = c := by
    intro j
    rw [update_apply_ite]
    by_cases hj : q._spics c = q._spics j
    · rw [if_pos hj]
      exact ⟨fun _ => (hinj hj).symm, fun _ => rfl⟩
    · rw [if_neg hj, hhigh j]
      exact ⟨fun e => absurd e hne, fun e => absurd (e ▸ rfl) hj⟩
  have hP1 : ∀ i j : Fin N, Function.update lv (q._spics c) LOW (q._spics i) = LOW →
      Function.update lv (q._spics c) LOW (q._spics j) = LOW → i = j := by
    intro i j hi hj
    rw [(h1 i).1 hi, (h1 j).1 hj]
  have hX : ∀ t kk : Nat, t < 4 → kk = 4 * c.val + t →
      (miso (pos + 4 * c.val + t) % 256 = miso (pos + kk) % 256 ∧
        ∀ j : Fin N, (Function.update lv (q._spics c) LOW (q._spics j) = LOW
          ↔ j.val = kk / 4)) := by
    intro t kk ht hk
    subst hk
    refine ⟨by rw [Nat.add_assoc], ?_⟩
    intro j
    rw [h1 j, Fin.ext_iff]
    have : (4 * c.val + t) / 4 = c.val := by omega
    rw [this]
  have h2 : ∀ i : Fin N,
      Function.update (Function.update lv (q._spics c) LOW) (q._spics c) HIGH (q._spics i)
        = HIGH := by
    intro i
    rw [update_apply_ite]
    by_cases hj : q._spics c = q._spics i
    · rw [if_pos hj]
    · rw [if_neg hj, update_apply_ite, if_neg hj, hhigh i]
  have hP2 : ∀ i j : Fin N,
      Function.update (Function.update lv (q._spics c) LOW) (q._spics c) HIGH (q._spics i)
        = LOW →
      Function.update (Function.update lv (q._spics c) LOW) (q._spics c) HIGH (q._spics j)
        = LOW → i = j := by
    intro i j hi _
    rw [h2 i] at hi
    exact absurd hi hne
  constructor
  · unfold chanEvents
    exact ⟨hP0, hP1, hX 0 (4 * c.val) (by decide) rfl, hP1,
      hX 1 (4 * c.val + 1) (by decide) rfl, hP1,
      hX 2 (4 * c.val + 1 + 1) (by decide) rfl, hP1,
      hX 3 (4 * c.val + 1 + 1 + 1) (by decide) rfl, hP1, hP2⟩
  · intro i
    simp only [chanEvents, replay, List.foldl, applyEvent]
    exact h2 i

theorem passEvents_along {N : Nat} (q : QuadTC N) (miso : Nat → Nat) (pos : Nat)
    (lv : Nat → Bool) (hinj : Function.Injective q._spics)
    (hhigh : ∀ i : Fin N, lv (q._spics i) = HIGH) (k : Nat) (h : k ≤ N) :
    Along
      (fun lv => ∀ i j : Fin N, lv (q._spics i) = LOW → lv (q._spics j) = LOW → i = j)
      (fun k r lv => r = miso (pos + k) % 256 ∧
        ∀ j : Fin N, (lv (q._spics j) = LOW ↔ j.val = k / 4))
      lv 0 (passEvents q miso pos k h) ∧
    (∀ i : Fin N, replay lv (passEvents q miso pos k h) (q._spics i) = HIGH) := by
  induction k with
  | zero =>
    simp only [passEvents, Along, replay, List.foldl]
    refine ⟨?_, hhigh⟩
    intro i j hi _
    rw [hhigh i] at hi
    exact absurd hi (by decide)
  | succ k ih =>
    obtain ⟨a, b⟩ := ih (Nat.le_of_succ_le h)
    obtain ⟨c, d⟩ := chanEvents_along q miso pos
      (replay lv (passEvents q miso pos k (Nat.le_of_succ_le h))) hinj b ⟨k, h⟩
    simp only [passEvents]
    constructor
    · apply along_append _ _ _ _ _ _ a
      rw [countTransfers_passEvents, Nat.zero_add]
      exact c
    · intro i
      rw [replay_append]
      exact d i

theorem passEvents_writes {N : Nat} (q : QuadTC N) (miso : Nat → Nat) (pos : Nat)
    (k : Nat) (h : k ≤ N) (pin : Nat) (v : Bool)
    (hmem : Event.digitalWrite pin v ∈ passEvents q miso pos k h) :
    ∃ i : Fin N, pin = q._spics i := by
  induction k with
  | zero =>
    simp only [passEvents, List.not_mem_nil] at hmem
  | succ k ih =>
    simp only [passEvents, List.mem_append] at hmem
    rcases hmem with hm | hm
    · exact ih (Nat.le_of_succ_le h) hm
    · simp only [chanEvents, List.mem_cons, Event.digitalWrite.injEq, List.mem_singleton,
        List.not_mem_nil, or_false] at hm
      rcases hm with hm | hm | hm | hm | hm | hm
      · exact ⟨⟨k, h⟩, hm.1⟩
      · cases hm
      · cases hm
      · cases hm
      · cases hm
      · exact ⟨⟨k, h⟩, hm.1⟩

theorem passEvents_no_pinMode {N : Nat} (q : QuadTC N) (miso : Nat → Nat) (pos : Nat)
    (k : Nat) (h : k ≤ N) (pin : Nat) (m : PinMode) :
    Event.pinMode pin m ∉ passEvents q miso pos k h := by
  induction k with
  | zero =>
    simp only [passEvents, List.not_mem_nil, not_false_eq_true]
  | succ k ih =>
    simp only [passEvents, List.mem_append, chanEvents, List.mem_cons, List.mem_singleton,
      List.not_mem_nil, or_false]
    rintro (hm | hm)
    · exact ih (Nat.le_of_succ_le h) hm
    · rcases hm with hm | hm | hm | hm | hm | hm <;> cases hm

/-- C16: whatever the bus answers, `retrieve()` makes exactly `4 * tc_count`
byte exchanges; its primitive calls are the chip reads of the channels in
ascending order (select, four exchanges, deselect); the word that
`_retrieve_data` returns in round `i` of the loop is
`b0 * 2^24 + b1 * 2^16 + b2 * 2^8 + b3` for the four bytes received in the
exchanges number `4 * i` to `4 * i + 3` of the pass; and what is stored for a
channel after the pass is determined by those four bytes and what was stored for
that channel before. -/
theorem C16_pass_structure {N : Nat} (q : QuadTC N) (hw : Hw) :
    (retrieve q hw).hw.xfers = hw.xfers + 4 * N ∧
    (retrieve q hw).hw.log = hw.log ++ passEvents q hw.miso hw.xfers N (Nat.le_refl N) ∧
    countTransfers (passEvents q hw.miso hw.xfers N (Nat.le_refl N)) = 4 * N ∧
    (∀ i : Fin N,
      (_retrieve_data
          (forUpTo N retrieve_body i.val (Nat.le_of_lt i.isLt)
            { good := 0, q := q, hw := hw }).q
          (forUpTo N retrieve_body i.val (Nat.le_of_lt i.isLt)
            { good := 0, q := q, hw := hw }).hw (i.val + 1)).1
        = hw.miso (hw.xfers + 4 * i.val) % 256 * 2 ^ 24
          + hw.miso (hw.xfers + 4 * i.val + 1) % 256 * 2 ^ 16
          + hw.miso (hw.xfers + 4 * i.val + 2) % 256 * 2 ^ 8
          + hw.miso (hw.xfers + 4 * i.val + 3) % 256) ∧
    (∀ (i : Fin N) {M : Nat} (q2 : QuadTC M) (hw2 : Hw) (j : Fin M),
      (∀ k : Nat, k < 4 →
        hw2.miso (hw2.xfers + 4 * j.val + k) % 256
          = hw.miso (hw.xfers + 4 * i.val + k) % 256) →
      q2._tctemp j = q._tctemp i → q2._ambtemp j = q._ambtemp i →
      (retrieve q2 hw2).q._tctemp j = (retrieve q hw).q._tctemp i ∧
      (retrieve q2 hw2).q._ambtemp j = (retrieve q hw).q._ambtemp i ∧
      (retrieve q2 hw2).q._faults j = (retrieve q hw).q._faults i) := by
  obtain ⟨_, x, _, _, tc, amb, flt, _⟩ := retrieve_spec q hw
  refine ⟨x, (retrieve_hw q hw).1, countTransfers_passEvents q _ _ N _, ?_, ?_⟩
  · intro i
    obtain ⟨i1, i2, _⟩ := retrieve_upto q hw 0 i.val (Nat.le_of_lt i.isLt)
    rw [(retrieve_data_spec _ _ i).1, i1, i2]
    rfl
  · intro i M q2 hw2 j hbytes ht ha
    obtain ⟨_, _, _, _, tc2, amb2, flt2, _⟩ := retrieve_spec q2 hw2
    have hword : rxWord hw2 j = rxWord hw i := by
      have b0 := hbytes 0 (by decide)
      have b1 := hbytes 1 (by decide)
      have b2 := hbytes 2 (by decide)
      have b3 := hbytes 3 (by decide)
      simp only [Nat.add_zero] at b0
      unfold rxWord wordAt
      rw [b0, b1, b2, b3]
    rw [tc2 j, amb2 j, flt2 j, tc i, amb i, flt i, hword, ht, ha]
    exact ⟨rfl, rfl, rfl⟩

/-- Witness of C16: a pass of a reader of two chips over the answers
`0x06400000` and `0xFFFFFFFF` makes these twelve primitive calls. -/
theorem C16_pass_structure_witness :
    (retrieve (QuadTC.ctor 2) hwEndToEnd).hw.log
      = [Event.digitalWrite 39 LOW, Event.transfer 0 0x06, Event.transfer 0 0x40,
         Event.transfer 0 0, Event.transfer 0 0, Event.digitalWrite 39 HIGH,
         Event.digitalWrite 38 LOW, Event.transfer 0 0xFF, Event.transfer 0 0xFF,
         Event.transfer 0 0xFF, Event.transfer 0 0xFF, Event.digitalWrite 38 HIGH] :=
  (C16_pass_structure (QuadTC.ctor 2) hwEndToEnd).2.1.trans (by decide)

/-- C20 as stated fails: for the reader built by `QuadTC(40, 40)`, whose only
chip-select pin is its power pin and is at logic high, `retrieve()` writes pin
40, the power pin. -/
theorem C20_power_pin_counterexample :
    qShared._gpio_tcpower = 40 ∧
    (∀ i j : Fin 1, qShared._spics i = qShared._spics j → i = j) ∧
    (∀ i : Fin 1, hwHigh.level (qShared._spics i) = HIGH) ∧
    hwHigh.log = [] ∧
    (retrieve qShared hwHigh).hw.log
      = [Event.digitalWrite 40 LOW, Event.transfer 0 0, Event.transfer 0 0,
         Event.transfer 0 0, Event.transfer 0 0, Event.digitalWrite 40 HIGH] := by
  decide

/-- C20, amended: if the chip-select pins are pairwise distinct and all at logic
high when `retrieve()` is called, then at every moment of the call at most one
chip-select pin is at logic low, exchange number `k` of the pass (which receives
a byte of channel slot `k / 4`) happens while the chip-select pin of slot `k / 4`
and no other is at logic low, and when `retrieve()` returns all chip-select pins
are at logic high; `retrieve()` writes chip-select pins only, so it never writes
the power pin when the power pin is not one of the chip-select pins. -/
theorem C20_chip_select {N : Nat} (q : QuadTC N) (hw : Hw)
    (hdistinct : ∀ i j : Fin N, q._spics i = q._spics j → i = j)
    (hhigh : ∀ i : Fin N, hw.level (q._spics i) = HIGH) :
    (retrieve q hw).hw.log = hw.log ++ passEvents q hw.miso hw.xfers N (Nat.le_refl N) ∧
    (∀ pre post : List Event,
      passEvents q hw.miso hw.xfers N (Nat.le_refl N) = pre ++ post →
      ∀ i j : Fin N, replay hw.level pre (q._spics i) = LOW →
        replay hw.level pre (q._spics j) = LOW → i = j) ∧
    (∀ (pre post : List Event) (sent r : Nat),
      passEvents q hw.miso hw.xfers N (Nat.le_refl N)
        = pre ++ Event.transfer sent r :: post →
      countTransfers pre < 4 * N ∧
      r = hw.miso (hw.xfers + countTransfers pre) % 256 ∧
      ∀ j : Fin N, (replay hw.level pre (q._spics j) = LOW
        ↔ j.val = countTransfers pre / 4)) ∧
    (retrieve q hw).hw.level
      = replay hw.level (passEvents q hw.miso hw.xfers N (Nat.le_refl N)) ∧
    (∀ i : Fin N, (retrieve q hw).hw.level (q._spics i) = HIGH) ∧
    (∀ (pin : Nat) (v : Bool),
      Event.digitalWrite pin v ∈ passEvents q hw.miso hw.xfers N (Nat.le_refl N) →
      ∃ i : Fin N, pin = q._spics i) ∧
    ((∀ i : Fin N, q._spics i ≠ q._gpio_tcpower) →
      ∀ v : Bool,
        Event.digitalWrite q._gpio_tcpower v
          ∉ passEvents q hw.miso hw.xfers N (Nat.le_refl N)) ∧
    (∀ (pin : Nat) (m : PinMode),
      Event.pinMode pin m ∉ passEvents q hw.miso hw.xfers N (Nat.le_refl N)) := by
  obtain ⟨hlog, hlevel, _⟩ := retrieve_hw q hw
  obtain ⟨halong, hend⟩ := passEvents_along q hw.miso hw.xfers hw.level
    (fun i j h => hdistinct i j h) hhigh N (Nat.le_refl N)
  refine ⟨hlog, ?_, ?_, hlevel, ?_, ?_, ?_, ?_⟩
  · intro pre post hsplit
    rw [hsplit] at halong
    exact along_prefix _ _ pre post hw.level 0 halong
  · intro pre post sent r hsplit
    have hcount := countTransfers_passEvents q hw.miso hw.xfers N (Nat.le_refl N)
    rw [hsplit, countTransfers_append] at hcount
    simp only [countTransfers] at hcount
    rw [hsplit] at halong
    have hx := along_transfer _ _ pre post sent r hw.level 0 halong
    rw [Nat.zero_add] at hx
    exact ⟨by omega, hx.1, hx.2⟩
  · intro i
    rw [hlevel]
    exact hend i
  · intro pin v hmem
    exact passEvents_writes q _ _ N _ pin v hmem
  · intro hne v hmem
    obtain ⟨i, hi⟩ := passEvents_writes q _ _ N _ _ v hmem
    exact hne i hi.symm
  · intro pin m
    exact passEvents_no_pinMode q _ _ N _ pin m

/-- Witness of the amended C20: the default reader of two chips, pins 39 and
38, on hardware with every pin at logic high, ends its pass with pin 39 at logic
high and never writes pin 40. -/
theorem C20_chip_select_witness :
    (QuadTC.ctor 2)._gpio_tcpower = 40 ∧
    (retrieve (QuadTC.ctor 2) hwHigh).hw.level ((QuadTC.ctor 2)._spics 0) = HIGH ∧
    (∀ v : Bool, Event.digitalWrite (QuadTC.ctor 2)._gpio_tcpower v
      ∉ passEvents (QuadTC.ctor 2) hwHigh.miso hwHigh.xfers 2 (Nat.le_refl 2)) :=
  ⟨by decide,
   (C20_chip_select (QuadTC.ctor 2) hwHigh (by decide) (by decide)).2.2.2.2.1 0,
   (C20_chip_select (QuadTC.ctor 2) hwHigh (by decide) (by decide)).2.2.2.2.2.2.1
     (by decide)⟩

end QuadTCLib
